import Mathlib

/-!
Verification of the Foundry world manager (`vttcompressor.py`).

This file gives a shallow embedding of the program's data model and of the
operations the specification talks about, and proves or refutes the spec's
claims about them.  Paths are modelled as strings with POSIX-style `/`
separators; the filesystem is modelled as an association list from paths to
file data; documents are modelled as an association list from reference
locations to leaf contents; the `md5`/`sha256` digests are modelled as
injective functions of their input (the raw input itself), which is the only
property of a digest the program relies on.
-/

namespace Vtt

/-! ### Generic list and string helpers (ASCII model of Python str/pathlib) -/

/-- Boolean test that `pat` is a leading run of `l` (used for substring
and path-ancestor checks). -/
def listIsPrefixOf {α : Type} [BEq α] : List α → List α → Bool
  | [], _ => true
  | _ :: _, [] => false
  | a :: as, b :: bs => a == b && listIsPrefixOf as bs

/-- Boolean substring containment on char lists; models a `re.match` of the
pattern `.*needle.*` for a needle without regex metacharacters. -/
def listContainsSub (needle : List Char) : List Char → Bool
  | [] => listIsPrefixOf needle []
  | c :: rest => listIsPrefixOf needle (c :: rest) || listContainsSub needle rest

/-- Substring containment on strings. -/
def strContains (hay needle : String) : Bool :=
  listContainsSub needle.data hay.data

/-- First `n` characters of a string; models Python `s[:n]`. -/
def strTake (s : String) (n : Nat) : String := ⟨s.data.take n⟩

/-- Drop the first `n` characters of a string; models Python `s[n:]`. -/
def strDrop (s : String) (n : Nat) : String := ⟨s.data.drop n⟩

/-- Models Python `s.startswith(pre)`. -/
def strStarts (s pre : String) : Bool := listIsPrefixOf pre.data s.data

/-- ASCII lowercasing; models Python `str.lower` on the ASCII inputs the
program handles. -/
def strLower (s : String) : String := ⟨s.data.map Char.toLower⟩

/-- Replace every non-overlapping occurrence of `pat` (non-empty) in the
char list by `repl`, scanning left to right; models Python `str.replace`.
The fuel argument (instantiated with the list length, which bounds the
number of steps) keeps the recursion structural. -/
def replaceAll (pat repl : List Char) : Nat → List Char → List Char
  | _, [] => []
  | 0, l => l
  | fuel + 1, c :: rest =>
    if pat ≠ [] ∧ listIsPrefixOf pat (c :: rest) = true then
      repl ++ replaceAll pat repl fuel ((c :: rest).drop pat.length)
    else
      c :: replaceAll pat repl fuel rest

/-- Models Python `str.replace` (all occurrences) for a non-empty pattern. -/
def strReplace (s pat repl : String) : String :=
  ⟨replaceAll pat.data repl.data s.data.length s.data⟩

/-- Join a list of strings with a separator; models Python `sep.join(parts)`. -/
def joinWith (sep : String) : List String → String
  | [] => ""
  | [s] => s
  | s :: rest => s ++ sep ++ joinWith sep rest

/-- Split a char list on a separator character. -/
def splitSeg (sep : Char) (l : List Char) : List (List Char) :=
  l.foldr (fun c acc => if c = sep then [] :: acc else (c :: acc.headD []) :: acc.tail) [[]]

/-- Path segments: split a path string on `/`; models `pathlib` components
for the already-normalized relative paths the program builds. -/
def segs (p : String) : List String := (splitSeg '/' p.data).map (fun l => ⟨l⟩)

/-- Strict lexicographic order on char lists by code point. -/
def lexLtChars : List Char → List Char → Bool
  | [], [] => false
  | [], _ :: _ => true
  | _ :: _, [] => false
  | a :: as, b :: bs => a < b || (a == b && lexLtChars as bs)

/-- Strict lexicographic order on strings; spec-side definition used to
state "lexicographically smallest path string". -/
def strLexLt (a b : String) : Bool := lexLtChars a.data b.data

/-- Helper of `dedupFirst`: drop the elements already seen. -/
def dedupFirstAux {α : Type} [DecidableEq α] (seen : List α) : List α → List α
  | [] => []
  | a :: rest =>
    if a ∈ seen then dedupFirstAux seen rest
    else a :: dedupFirstAux (a :: seen) rest

/-- Keep the first occurrence of every element, in order; models the key
order of a Python (insertion-ordered) dict built by repeated grouping. -/
def dedupFirst {α : Type} [DecidableEq α] (l : List α) : List α :=
  dedupFirstAux [] l

/-! ### Path operations (model of the `pathlib.PurePosixPath` operations used) -/

/-- Final path component; models `Path.name`. -/
def pathName (p : String) : String := (segs p).getLastD ""

/-- Python's `Path` stem/suffix rule: the suffix starts at the last dot of
the name provided that dot is neither the first nor the last character. -/
def splitExt (name : String) : String × String :=
  let l := name.data
  let dots := (l.enum.filter (fun ci => ci.2 = '.')).map (fun ci => ci.1)
  match dots.getLast? with
  | some i => if 0 < i ∧ i + 1 < l.length then (⟨l.take i⟩, ⟨l.drop i⟩) else (name, "")
  | none => (name, "")

/-- Models `Path.stem`. -/
def pathStem (p : String) : String := (splitExt (pathName p)).1

/-- Models `Path.suffix` (includes the leading dot, or is empty). -/
def pathSuffix (p : String) : String := (splitExt (pathName p)).2

/-- Replace the final component; models `Path.with_name`. -/
def withName (p n : String) : String := joinWith "/" ((segs p).dropLast ++ [n])

/-- Models `Path.with_stem`. -/
def withStem (p st : String) : String := withName p (st ++ pathSuffix p)

/-- Models `Path.with_suffix` (on the valid suffixes the program passes). -/
def withSuffix (p sfx : String) : String := withName p (pathStem p ++ sfx)

/-- Models `Path(a) / b` for a relative `b`. -/
def joinPath (a b : String) : String := a ++ "/" ++ b

/-- Models `wf in p.parents`: the segments of `wf` are a proper leading
run of the segments of `p`. -/
def inParents (wf p : String) : Bool :=
  listIsPrefixOf (segs wf) (segs p) && decide ((segs wf).length < (segs p).length)

/-! ### Percent encoding and decoding (ASCII model of `urllib.parse`) -/

/-- Hex digit value. -/
def hexVal (c : Char) : Option Nat :=
  if '0' ≤ c ∧ c ≤ '9' then some (c.toNat - '0'.toNat)
  else if 'a' ≤ c ∧ c ≤ 'f' then some (c.toNat - 'a'.toNat + 10)
  else if 'A' ≤ c ∧ c ≤ 'F' then some (c.toNat - 'A'.toNat + 10)
  else none

/-- Percent-decoding on char lists; models `urllib.parse.unquote` on the
ASCII inputs the program handles. -/
def unquoteChars : List Char → List Char
  | [] => []
  | '%' :: a :: b :: rest =>
    match hexVal a, hexVal b with
    | some x, some y => Char.ofNat (16 * x + y) :: unquoteChars rest
    | _, _ => '%' :: unquoteChars (a :: b :: rest)
  | c :: rest => c :: unquoteChars rest

/-- Models `urllib.parse.unquote`. -/
def unquote (s : String) : String := ⟨unquoteChars s.data⟩

/-- Uppercase hex digit of a value below 16. -/
def hexDigit (n : Nat) : Char :=
  if n < 10 then Char.ofNat ('0'.toNat + n) else Char.ofNat ('A'.toNat + n - 10)

/-- Characters `urllib.parse.quote` keeps as-is with the default `safe="/"`. -/
def quoteSafe (c : Char) : Bool :=
  c.isAlphanum || c == '_' || c == '.' || c == '-' || c == '~' || c == '/'

/-- Percent-encoding; models `urllib.parse.quote` on ASCII input. -/
def quoteStr (s : String) : String :=
  ⟨(s.data.map (fun c =>
      if quoteSafe c then [c]
      else ['%', hexDigit (c.toNat / 16 % 16), hexDigit (c.toNat % 16)])).flatten⟩

/-- Collapse runs of `-` to a single `-`; models `re.sub("-+", "-", s)`. -/
def collapseHyphens (s : String) : String :=
  ⟨s.data.foldr (fun c acc => if c = '-' ∧ acc.headD ' ' = '-' then acc else c :: acc) []⟩

/-! ### Filesystem model

A regular file is a path plus its observable data: the digest of its bytes
(model of `hashlib.md5(...).hexdigest()`, injective in the content) and the
signature-based encoding (model of `imghdr.what`). -/

structure FileData where
  hash : String
  sig : Option String
  deriving DecidableEq, Repr

instance : Inhabited FileData := ⟨⟨"", none⟩⟩

/-- The filesystem: an association list from paths to file data. -/
abbrev Disk : Type := List (String × FileData)

/-- Models `Path.is_file()`. -/
def diskHas (d : Disk) (p : String) : Bool :=
  d.any (fun e => decide (e.1 = p))

/-- File data of an existing path (the program only reads existing files). -/
def lookupFD (d : Disk) (p : String) : FileData :=
  ((d.find? (fun e => decide (e.1 = p))).map (fun e => e.2)).getD default

/-- Create or overwrite a file. -/
def diskPut : Disk → String → FileData → Disk
  | [], p, fd => [(p, fd)]
  | e :: rest, p, fd => if e.1 = p then (p, fd) :: rest else e :: diskPut rest p fd

/-- Remove a path. -/
def diskErase (d : Disk) (p : String) : Disk :=
  d.filter (fun e => decide (e.1 ≠ p))

/-- Models `Path.rename(dst)`: the file disappears from `src` and appears
at `dst` (a move, not a copy). No effect if `src` does not exist. -/
def diskRename (d : Disk) (src dst : String) : Disk :=
  if diskHas d src then diskPut (diskErase d src) dst (lookupFD d src) else d

/-- Extension-based encoding guess; models
`mimetypes.guess_type(p)[0].split("/")[1].lower()` on the image types the
program handles, `none` when the table has no entry. -/
def mimeGuess (p : String) : Option String :=
  let ext := strLower (pathSuffix p)
  if ext = ".png" then some "png"
  else if ext = ".jpg" ∨ ext = ".jpeg" ∨ ext = ".jpe" then some "jpeg"
  else if ext = ".webp" then some "webp"
  else if ext = ".gif" then some "gif"
  else none

/-! ### The reference model (`ImageReference`) -/

/-- One step of a JSON address: a dict key or a list index. -/
inductive AddrPart where
  | key (s : String)
  | idx (n : Nat)
  deriving DecidableEq, Repr

/-- Identity of a leaf inside the loaded documents: file kind (`"json"` or
`"db"`), file path, record line, JSON address. A reference owns exactly one
location; two references extracted from the same HTML leaf share it. -/
abbrev Loc : Type := String × String × Option Nat × List AddrPart

/-- The per-world configuration an `ImageReference` reads from its owning
`WorldRefs`: the world folder and the Foundry core data folder. -/
structure Env where
  world_folder : String
  core_data_folder : String
  deriving DecidableEq, Repr

/-- Shallow embedding of an `ImageReference` object: the immutable identity
fields and every mutable resolution fact `set_editable_attributes` writes. -/
structure Ref where
  ref_file_type : String
  ref_file_path : String
  ref_file_line : Option Nat
  json_address : List AddrPart
  ref_id : String
  ref_path : String
  ref_img_in_world_folder : Bool
  img_path_on_disk : Option String
  img_exists : Bool
  img_encoding : Option String
  img_hash : Option String
  is_webp : Bool
  webp_ref_path : Option String
  webp_copy_exists : Option Bool
  correct_extension : Option Bool
  img_ref_external_web_link : Bool
  deriving DecidableEq, Repr

instance : Inhabited Ref :=
  ⟨{ ref_file_type := "", ref_file_path := "", ref_file_line := none,
     json_address := [], ref_id := "", ref_path := "",
     ref_img_in_world_folder := false, img_path_on_disk := none,
     img_exists := false, img_encoding := none, img_hash := none,
     is_webp := false, webp_ref_path := none, webp_copy_exists := none,
     correct_extension := none, img_ref_external_web_link := false }⟩

/-- The document location of a reference. -/
def Ref.loc (r : Ref) : Loc :=
  (r.ref_file_type, r.ref_file_path, r.ref_file_line, r.json_address)

/-- The three-step resolution of a declared path: (a) as a literal path,
(b) under the core data folder, (c) percent-decoded. First existing file
wins; models the `is_file` chain of `set_editable_attributes`. -/
def resolveRef (e : Env) (d : Disk) (p : String) : Option String :=
  if diskHas d p then some p
  else if diskHas d (joinPath e.core_data_folder p) then some (joinPath e.core_data_folder p)
  else if diskHas d (unquote p) then some (unquote p)
  else none

/-- Stem sanitization used for the webp sibling name:
`stem.replace(" ", "-").lower()`, then `re.sub("-+", "-", ...)`, then
`urllib.parse.quote(...)`. -/
def sanitizeStem (s : String) : String :=
  quoteStr (collapseHyphens (strLower (strReplace s " " "-")))

/-- Lowercased extension of a path without the dot; models
`Path(p).suffix[1:].lower()`. -/
def extNoDot (p : String) : String := strLower (strDrop (pathSuffix p) 1)

/-- Faithful model of `ImageReference.set_editable_attributes(ref_path)`:
recomputes the mutable resolution facts of `r` for the declared path `rp`
against filesystem `d`. Fields the Python method does not assign on a given
branch (on failed resolution: `img_hash`, `is_webp`, `webp_ref_path`,
`webp_copy_exists`) keep their previous values. -/
def setEditableAttributes (e : Env) (d : Disk) (r : Ref) (rp : String) : Ref :=
  let in_world := inParents e.world_folder rp
  let ext_link := strStarts rp "http"
  match resolveRef e d rp with
  | none =>
    { r with
      ref_path := rp, ref_img_in_world_folder := in_world,
      img_path_on_disk := none, img_exists := false,
      img_encoding := none, correct_extension := none,
      img_ref_external_web_link := ext_link }
  | some ipod =>
    let fd := lookupFD d ipod
    let enc0 : Option String :=
      match fd.sig with
      | some sig => some sig
      | none => mimeGuess ipod
    let hash : Option String := if in_world then some fd.hash else none
    let iswebp : Bool := strLower (pathSuffix rp) == ".webp"
    let st := sanitizeStem (pathStem ipod)
    let wrp := withSuffix (withStem rp st) ".webp"
    let wce : Option Bool := if iswebp then none else some (diskHas d wrp)
    let encL := enc0.map strLower
    let ce : Option Bool :=
      match encL with
      | none => none
      | some enc =>
        if enc == "jpeg" then some (extNoDot ipod == "jpeg" || extNoDot ipod == "jpg")
        else some (extNoDot ipod == enc)
    { r with
      ref_path := rp, ref_img_in_world_folder := in_world,
      img_path_on_disk := some ipod, img_exists := true,
      img_encoding := encL, img_hash := hash, is_webp := iswebp,
      webp_ref_path := some wrp, webp_copy_exists := wce,
      correct_extension := ce, img_ref_external_web_link := ext_link }

/-! ### The world model (`WorldRefs`)

Documents are modelled at the granularity the reference operations use: an
association list from a reference's location (file, record line, JSON
address) to the string content of that leaf.  `push_updated_content_to_world`
writes that leaf; `get_img_ref_content` reads it. -/

abbrev Docs : Type := List (Loc × String)

/-- Read an association list, first match wins, with a default. -/
def assocGetD {κ ν : Type} [DecidableEq κ] (m : List (κ × ν)) (k : κ) (dflt : ν) : ν :=
  ((m.find? (fun e => decide (e.1 = k))).map (fun e => e.2)).getD dflt

/-- Read an association list, first match wins. -/
def assocFind {κ ν : Type} [DecidableEq κ] (m : List (κ × ν)) (k : κ) : Option ν :=
  (m.find? (fun e => decide (e.1 = k))).map (fun e => e.2)

/-- Write an association list entry (overwriting, append if absent);
models assignment into a Python dict. -/
def assocPut {κ ν : Type} [DecidableEq κ] : List (κ × ν) → κ → ν → List (κ × ν)
  | [], k, v => [(k, v)]
  | e :: rest, k, v => if e.1 = k then (k, v) :: rest else e :: assocPut rest k v

/-- Shallow embedding of a `WorldRefs` object: configuration, filesystem,
loaded documents, the reference list built by the scan, and the trash queue
(a set, modelled as a duplicate-free list). -/
structure World where
  env : Env
  disk : Disk
  docs : Docs
  refs : List Ref
  trash_queue : List String
  deriving DecidableEq, Repr

/-- The world's trash folder, `world_folder / "_trash"` (from
`WorldRefs.__init__`). -/
def trashDir (e : Env) : String := joinPath e.world_folder "_trash"

/-- The reference at index `i` of the world's reference list. -/
def refAt (w : World) (i : Nat) : Ref := w.refs.getD i default

/-- Models `ImageReference.get_img_ref_content()`. -/
def getContent (w : World) (r : Ref) : String := assocGetD w.docs r.loc ""

/-- Models `ImageReference.push_updated_content_to_world(content)`. -/
def pushContent (docs : Docs) (r : Ref) (content : String) : Docs :=
  assocPut docs r.loc content

/-- Set-like insertion; models `set.add`. -/
def queueInsert (q : List String) (p : String) : List String :=
  if p ∈ q then q else q ++ [p]

/-- Models `str(path)` for an optional path, `str(None) = "None"`. -/
def optPathStr (o : Option String) : String := o.getD "None"

/-- Models `WorldRefs.get_broken_refs()`: a reference is reported broken
when it has no resolved disk path and is not an external web link, or when
its resolved disk path is already queued for trash. -/
def getBrokenRefs (w : World) : List Ref :=
  w.refs.filter (fun r =>
    (decide (r.img_path_on_disk = none) && !r.img_ref_external_web_link) ||
    (match r.img_path_on_disk with
     | some p => decide (p ∈ w.trash_queue)
     | none => false))

/-! ### Indices (insertion-ordered grouping, as Python dicts preserve
insertion order) -/

/-- Indices of the references satisfying `P`, in list order: the bucket a
Python grouping loop builds for the matching key. -/
def idxsWhere (P : Ref → Bool) (refs : List Ref) : List Nat :=
  (List.range refs.length).filter (fun i => P (refs.getD i default))

/-- Models `WorldRefs.get_refs_indexed_by_img()` on `all_img_refs`: keys in
order of first occurrence, buckets (as indices into `refs`) in list order. -/
def refsIndexedByImg (w : World) : List (String × List Nat) :=
  (dedupFirst (w.refs.map (fun r => r.ref_path))).map
    (fun p => (p, idxsWhere (fun r => decide (r.ref_path = p)) w.refs))

/-- Inner index of `get_refs_indexed_by_hash_by_img` for one hash value:
the distinct declared paths of the references with that hash, each with its
bucket of reference indices. -/
def hashGroup (w : World) (h : Option String) : List (String × List Nat) :=
  (dedupFirst ((w.refs.filter (fun r => decide (r.img_hash = h))).map (fun r => r.ref_path))).map
    (fun p => (p, idxsWhere (fun r => decide (r.img_hash = h ∧ r.ref_path = p)) w.refs))

/-- Models `WorldRefs.get_refs_indexed_by_hash_by_img()` on `all_img_refs`. -/
def refsIndexedByHashByImg (w : World) : List (Option String × List (String × List Nat)) :=
  (dedupFirst (w.refs.map (fun r => r.img_hash))).map (fun h => (h, hashGroup w h))

/-- Models `WorldRefs.get_duplicated_images()`: keep the hash groups that
span more than one distinct path and whose hash is not `None`. -/
def getDuplicatedImages (w : World) : List (Option String × List (String × List Nat)) :=
  (refsIndexedByHashByImg w).filter
    (fun e => decide (1 < e.2.length) && decide (e.1 ≠ none))

/-! ### Repair and conversion passes -/

/-- One iteration of the inner loop of `fix_one_set_of_duplicated_images`:
repoint the reference at index `i` to `main` — compute the updated leaf
content (old resolved path string replaced by `main`), re-resolve the
reference at `main`, and push the updated content at its address. -/
def fixOneRefToMain (main : String) (w : World) (i : Nat) : World :=
  let r := refAt w i
  let updated := strReplace (getContent w r) (optPathStr r.img_path_on_disk) main
  let r2 := setEditableAttributes w.env w.disk r main
  { w with refs := w.refs.set i r2, docs := pushContent w.docs r updated }

/-- Models `WorldRefs.fix_one_set_of_duplicated_images(d)`: the first key of
the group dict is the canonical image; every reference under each later key
is repointed to it and each later key is queued for trash. The empty-group
case cannot arise from `get_duplicated_images` (its groups have at least two
keys). -/
def fixOneSetOfDuplicatedImages (w : World) (g : List (String × List Nat)) : World :=
  match g with
  | [] => w
  | (main, _) :: rest =>
    rest.foldl (fun w pr =>
      let w2 := pr.2.foldl (fixOneRefToMain main) w
      { w2 with trash_queue := queueInsert w2.trash_queue pr.1 }) w

/-- Models `WorldRefs.fix_all_sets_of_duplicated_images()`: compute the
duplicated-image groups once, then fix each group in order. (The final
re-computation of `get_duplicated_images` in the Python code binds a local
variable and has no effect.) -/
def fixAllSetsOfDuplicatedImages (w : World) : World :=
  ((getDuplicatedImages w).map (fun e => e.2)).foldl fixOneSetOfDuplicatedImages w

/-- Models `WorldRefs.try_to_fix_one_broken_ref(ref)` for the reference at
index `i`: if the first seven characters of the declared path are
`"modules"`, replace every occurrence of the substring `"modules"` by
`"worlds"`; if the resulting path is an existing file, update the leaf
content, re-resolve the reference and push; returns whether it fixed. -/
def tryToFixOneBrokenRef (w : World) (i : Nat) : World × Bool :=
  let r := refAt w i
  if strTake r.ref_path 7 = "modules" then
    let np := strReplace r.ref_path "modules" "worlds"
    if diskHas w.disk np then
      let newContent := strReplace (getContent w r) r.ref_path np
      let r2 := setEditableAttributes w.env w.disk r np
      ({ w with refs := w.refs.set i r2, docs := pushContent w.docs r newContent }, true)
    else (w, false)
  else (w, false)

/-- Models `WorldRefs.update_one_ref_to_webp(ref)` for the reference at
index `i`: replace the declared path string by the webp sibling path in the
leaf content, re-resolve the reference at the sibling path, push. -/
def updateOneRefToWebp (w : World) (i : Nat) : World :=
  let r := refAt w i
  let np := optPathStr r.webp_ref_path
  let newContent := strReplace (getContent w r) r.ref_path np
  let r2 := setEditableAttributes w.env w.disk r np
  { w with refs := w.refs.set i r2, docs := pushContent w.docs r newContent }

/-- Outcome of one external encoder invocation (`ffmpeg` via
`subprocess.run`): the exit code, whether the destination file was created,
and the created file's data. -/
structure EncResult where
  returncode : Nat
  creates : Bool
  output : FileData

/-- Models `WorldRefs.convert_all_images_to_webp_and_update_refs()`, with
the external encoder as the collaborator `enc (source) (dest)`. For every
path bucket whose first reference is a non-webp, existing, in-world-folder
image: invoke the encoder if the webp sibling is missing; when the exit
code is zero and the sibling now exists, repoint every reference of the
bucket; in every case add the bucket's path to the trash queue. -/
def convertAllImagesToWebp (enc : String → String → EncResult) (w : World) : World :=
  (refsIndexedByImg w).foldl (fun w pr =>
    let temp := refAt w (pr.2.headD 0)
    if !temp.is_webp && temp.img_exists && temp.ref_img_in_world_folder then
      let wrp := optPathStr temp.webp_ref_path
      let step : Nat × Disk :=
        if diskHas w.disk wrp then (0, w.disk)
        else
          let res := enc (optPathStr temp.img_path_on_disk) wrp
          (res.returncode, if res.creates then diskPut w.disk wrp res.output else w.disk)
      let w2 := { w with disk := step.2 }
      let w3 :=
        if step.1 == 0 && diskHas w2.disk wrp then pr.2.foldl updateOneRefToWebp w2
        else w2
      { w3 with trash_queue := queueInsert w3.trash_queue pr.1 }
    else w) w

/-! ### Trash handling (`RewriteEngine`) -/

/-- The body of the loop of `move_all_imgs_in_trash_queue_to_trash` for one
queued path: choose the file (the path itself if it exists, else its
percent-decoded-stem variant if that exists); if a file was chosen and its
path string matches the regex `.* + world_folder + .*` — a substring test —
move it into the trash folder under its base name. -/
def moveOneToTrash (e : Env) (d : Disk) (file : String) : Disk :=
  let chosen : Bool × String :=
    if diskHas d file then (true, file)
    else
      let unq := withStem file (unquote (pathStem file))
      if diskHas d unq then (true, unq) else (false, file)
  if chosen.1 && strContains chosen.2 e.world_folder then
    diskRename d chosen.2 (joinPath (trashDir e) (pathName chosen.2))
  else d

/-- Models `WorldRefs.move_all_imgs_in_trash_queue_to_trash()`. -/
def moveAllImgsInTrashQueueToTrash (w : World) : World :=
  { w with disk := w.trash_queue.foldl (moveOneToTrash w.env) w.disk }

/-! ### Document persistence (`export_all_json_and_db_files`)

For the persistence claim the loaded files are modelled with their full
record structure: a JSON value type and the compact serializer
`json.dumps(value, separators=(",", ":"), ensure_ascii=False)`. -/

inductive Json where
  | null
  | bool (b : Bool)
  | num (n : Int)
  | str (s : String)
  | arr (xs : List Json)
  | obj (kvs : List (String × Json))

/-- JSON string escaping (the characters the documents at hand contain;
`ensure_ascii=False` keeps other characters as-is). -/
def escChar (c : Char) : List Char :=
  if c = '"' then ['\\', '"']
  else if c = '\\' then ['\\', '\\']
  else if c = '\n' then ['\\', 'n']
  else if c = '\t' then ['\\', 't']
  else if c = '\r' then ['\\', 'r']
  else [c]

/-- Serialized JSON string literal. -/
def escStr (s : String) : String := "\"" ++ ⟨(s.data.map escChar).flatten⟩ ++ "\""

mutual

/-- Compact serializer; models `json.dumps(v, separators=(",", ":"),
ensure_ascii=False)`. -/
def dumps : Json → String
  | .null => "null"
  | .bool true => "true"
  | .bool false => "false"
  | .num n => toString n
  | .str s => escStr s
  | .arr xs => "[" ++ dumpsList xs ++ "]"
  | .obj kvs => "\x7b" ++ dumpsObj kvs ++ "\x7d"

def dumpsList : List Json → String
  | [] => ""
  | [x] => dumps x
  | x :: rest => dumps x ++ "," ++ dumpsList rest

def dumpsObj : List (String × Json) → String
  | [] => ""
  | [kv] => escStr kv.1 ++ ":" ++ dumps kv.2
  | kv :: rest => escStr kv.1 ++ ":" ++ dumps kv.2 ++ "," ++ dumpsObj rest

end

/-- The loaded document files of a world, as `load_data` builds them:
`self.files = {"json": {path: [value]}, "db": {path: [value, ...]}}` — each
JSON file holds a single-element record list, each db file one record per
line. -/
structure FilesModel where
  jsonFiles : List (String × List Json)
  dbFiles : List (String × List Json)

/-- All files in iteration order of `self.files.values()`: the `"json"`
entry was inserted first, then `"db"`. -/
def allFiles (f : FilesModel) : List (String × List Json) :=
  f.jsonFiles ++ f.dbFiles

/-- Backup path used by `export_all_json_and_db_files`:
`path.with_suffix(path.suffix + "bak")`. -/
def backupPath (p : String) : String := withSuffix p (pathSuffix p ++ "bak")

/-- Content written for one file: one compact JSON value per record, joined
with line breaks (`"\n".join(json.dumps(l, ...) for l in content)`). -/
def exportContent (records : List Json) : String :=
  joinWith "\n" (records.map dumps)

/-- One filesystem side effect of the export. -/
inductive FileOp where
  | copy (src dst : String)
  | write (path content : String)
  deriving DecidableEq, Repr

/-- Models `WorldRefs.export_all_json_and_db_files()` as its sequence of
filesystem operations: for every loaded file, first copy it to its backup
path, then overwrite it with the serialized records. -/
def exportAllJsonAndDbFiles (f : FilesModel) : List FileOp :=
  (allFiles f).foldr
    (fun pr acc => FileOp.copy pr.1 (backupPath pr.1) :: FileOp.write pr.1 (exportContent pr.2) :: acc) []

/-! ### Reference ids and the scanner (`ImageReference.__init__`,
`traverse_dict_and_find_all_refs`) -/

/-- Python `str(line_number)` for the optional record line. -/
def lineStr : Option Nat → String
  | none => "None"
  | some n => toString n

/-- Python `str(...)` of a JSON address list, e.g. `['img', 0]`. -/
def addrRepr (addr : List AddrPart) : String :=
  "[" ++ joinWith ", " (addr.map (fun p =>
    match p with
    | .key s => "\x27" ++ s ++ "\x27"
    | .idx n => toString n)) ++ "]"

/-- The string hashed into a reference id:
`world_folder / core_data_folder / ref_file_path / ref_file_type /
str(ref_file_line) / str(json_address) / "img_ref"`.  The id itself is
`hashlib.sha256` of this string; the digest is modelled as the injective
identity on its input, which preserves exactly the equalities the program
relies on. Note the declared image path is not part of the input. -/
def refIdOf (e : Env) (rfp rft : String) (line : Option Nat) (addr : List AddrPart) : String :=
  joinPath (joinPath (joinPath (joinPath (joinPath (joinPath
    e.world_folder e.core_data_folder) rfp) rft) (lineStr line)) (addrRepr addr)) "img_ref"

/-- Models `ImageReference.__init__`: set the identity fields, compute the
id, then run `set_editable_attributes` on the declared path. The initial
values `img_hash = None`, `is_webp = False` mirror the constructor. -/
def mkRef (e : Env) (d : Disk) (rft rfp : String) (line : Option Nat)
    (addr : List AddrPart) (src : String) : Ref :=
  let r0 : Ref :=
    { ref_file_type := rft, ref_file_path := rfp, ref_file_line := line,
      json_address := addr, ref_id := refIdOf e rfp rft line addr,
      ref_path := "", ref_img_in_world_folder := false,
      img_path_on_disk := none, img_exists := false, img_encoding := none,
      img_hash := none, is_webp := false, webp_ref_path := none,
      webp_copy_exists := none, correct_extension := none,
      img_ref_external_web_link := false }
  setEditableAttributes e d r0 src

/-- Models the HTML branch of `traverse_dict_and_find_all_refs` for one
string leaf: `srcs` is the order-preserving list of distinct `img src`
values the markup extractor found in the leaf; one reference is created per
source and appended to `all_img_refs`, and each is stored into
`all_img_refs_by_id` under its id (overwriting). In a `"json"` file the
record line passed to the constructor is `None`. -/
def processHtmlLeaf (e : Env) (d : Disk) (rft rfp : String) (line : Nat)
    (addr : List AddrPart) (srcs : List String)
    (acc : List Ref × List (String × Ref)) : List Ref × List (String × Ref) :=
  srcs.foldl (fun acc src =>
    let r := mkRef e d rft rfp (if rft = "db" then some line else none) addr src
    (acc.1 ++ [r], assocPut acc.2 r.ref_id r)) acc

/-! ### Concrete worlds used to evaluate the operations -/

/-- A world configuration: world folder `worlds/w`, core data folder
`core`. -/
def exEnv : Env := { world_folder := "worlds/w", core_data_folder := "core" }

/-- A document location used by the example worlds. -/
def exLocA : Loc := ("db", "worlds/w/data/a.db", some 0, [AddrPart.key "img"])

/-- A second document location. -/
def exLocB : Loc := ("db", "worlds/w/data/a.db", some 1, [AddrPart.key "img"])

/-- Disk with one in-world png and no webp sibling. -/
def exDiskC1 : Disk := [("worlds/w/a.png", { hash := "h1", sig := some "png" })]

/-- The single reference of the conversion example, scanned at `exLocA`. -/
def exRefC1 : Ref :=
  mkRef exEnv exDiskC1 "db" "worlds/w/data/a.db" (some 0) [AddrPart.key "img"] "worlds/w/a.png"

/-- World for the conversion example. -/
def exWorldC1 : World :=
  { env := exEnv, disk := exDiskC1, docs := [(exLocA, "worlds/w/a.png")],
    refs := [exRefC1], trash_queue := [] }

/-- An encoder that always fails: non-zero exit code, no destination file. -/
def encFail : String → String → EncResult :=
  fun _ _ => { returncode := 1, creates := false, output := default }

/-- Disk for the trash-move example: a file outside the world folder whose
path string contains the world-folder string as a substring. -/
def exDiskC2 : Disk := [("backup/worlds/w/east.webp", { hash := "x", sig := some "webp" })]

/-- World for the trash-move example, with that outside file queued. -/
def exWorldC2 : World :=
  { env := exEnv, disk := exDiskC2, docs := [], refs := [],
    trash_queue := ["backup/worlds/w/east.webp"] }

/-- Disk for the duplicate-consolidation example: two in-world files with
identical content digest. -/
def exDiskC3 : Disk :=
  [("worlds/w/east_copy.webp", { hash := "H", sig := some "webp" }),
   ("worlds/w/east.webp", { hash := "H", sig := some "webp" })]

/-- A reference of the duplicate example, scanned at a given location. -/
def mkRefC3 (l : Loc) (p : String) : Ref :=
  setEditableAttributes exEnv exDiskC3
    { (default : Ref) with
      ref_file_type := l.1, ref_file_path := l.2.1,
      ref_file_line := l.2.2.1, json_address := l.2.2.2 } p

/-- World for the duplicate example: the reference to `east_copy.webp` is
encountered first in `all_img_refs`. -/
def exWorldC3 : World :=
  { env := exEnv, disk := exDiskC3,
    docs := [(exLocA, "worlds/w/east_copy.webp"), (exLocB, "worlds/w/east.webp")],
    refs := [mkRefC3 exLocA "worlds/w/east_copy.webp", mkRefC3 exLocB "worlds/w/east.webp"],
    trash_queue := [] }

/-- Disk for the legacy-path example: only the path obtained by replacing
every occurrence of `modules` exists; the path obtained by substituting
just the first segment does not. -/
def exDiskC4 : Disk := [("worlds/a/worlds.png", { hash := "y", sig := some "png" })]

/-- The broken reference of the legacy-path example: declared path
`modules/a/modules.png`, unresolved. -/
def exRefC4 : Ref :=
  mkRef exEnv exDiskC4 "db" "worlds/w/data/a.db" (some 0) [AddrPart.key "img"] "modules/a/modules.png"

/-- World for the legacy-path example. -/
def exWorldC4 : World :=
  { env := exEnv, disk := exDiskC4, docs := [(exLocA, "modules/a/modules.png")],
    refs := [exRefC4], trash_queue := [] }

/-- Disk for the idempotence counterexample: `p.png` and `r.png` share the
digest `h2`, `q.png` has digest `h1`. -/
def exDiskC7 : Disk :=
  [("worlds/w/p.png", { hash := "h2", sig := some "png" }),
   ("worlds/w/q.png", { hash := "h1", sig := some "png" }),
   ("worlds/w/r.png", { hash := "h2", sig := some "png" })]

/-- A reference with directly assigned resolution facts (the fields of an
`ImageReference` are plain attributes, so such states are constructible;
the first reference below carries a hash that no longer matches its file's
bytes). -/
def mkRefC7 (line : Nat) (p : String) (h : String) : Ref :=
  { (default : Ref) with
    ref_file_type := "db", ref_file_path := "worlds/w/data/a.db",
    ref_file_line := some line, json_address := [AddrPart.key "img"],
    ref_path := p, img_path_on_disk := some p, img_exists := true,
    ref_img_in_world_folder := true, img_hash := some h }

/-- World for the idempotence counterexample: the first reference's stored
hash `h1` is stale (the bytes of `p.png` now digest to `h2`). -/
def exWorldC7 : World :=
  { env := exEnv, disk := exDiskC7, docs := [],
    refs := [mkRefC7 0 "worlds/w/p.png" "h1", mkRefC7 1 "worlds/w/q.png" "h1",
             mkRefC7 2 "worlds/w/r.png" "h2", mkRefC7 3 "worlds/w/p.png" "h2"],
    trash_queue := [] }

/-- Disk for the hash-invariant counterexample: the declared path only
resolves under the core data folder. -/
def exDiskC8 : Disk := [("core/worlds/w/x.png", { hash := "HH", sig := some "png" })]

/-- The reference of the hash-invariant counterexample. -/
def exRefC8 : Ref := setEditableAttributes exEnv exDiskC8 default "worlds/w/x.png"

/-! ### Claim theorems -/

/-- Claim C1 (code bug, evaluated at the failing input): in the conversion
orchestration, for an in-tree, non-webp, existing image whose encoder
invocation fails (exit code 1, no destination file), the references sharing
the path and the documents are indeed left unchanged — but the path is
still added to the trash queue, contradicting the claim that a failed path
is not queued. -/
theorem c1_failed_conversion_still_queued :
    exRefC1.is_webp = false ∧ exRefC1.img_exists = true ∧
    exRefC1.ref_img_in_world_folder = true ∧
    diskHas exDiskC1 "worlds/w/a.webp" = false ∧
    (convertAllImagesToWebp encFail exWorldC1).refs = exWorldC1.refs ∧
    (convertAllImagesToWebp encFail exWorldC1).docs = exWorldC1.docs ∧
    "worlds/w/a.png" ∈ (convertAllImagesToWebp encFail exWorldC1).trash_queue :=
  ⟨by decide, by decide, by decide, by decide, by decide, by decide, by decide⟩

/-- Claim C2 counterexample: a queued file that lies outside the managed
tree (the world folder is not among its path's ancestors) but whose path
string contains the world-folder string is not left untouched: executing
the queued removals moves it away from its location. -/
theorem c2_counterexample :
    inParents exEnv.world_folder "backup/worlds/w/east.webp" = false ∧
    diskHas exWorldC2.disk "backup/worlds/w/east.webp" = true ∧
    diskHas (moveAllImgsInTrashQueueToTrash exWorldC2).disk "backup/worlds/w/east.webp" = false := by
  decide

/-- Claim C3 counterexample: with `east_copy.webp` encountered before
`east.webp` in the scan and both sharing one content digest, the
consolidation pass repoints the references to `east_copy.webp` — not to the
lexicographically smallest path — and queues the lexicographically smaller
`east.webp` for removal. -/
theorem c3_counterexample :
    strLexLt "worlds/w/east.webp" "worlds/w/east_copy.webp" = true ∧
    (refAt exWorldC3 1).img_hash = (refAt exWorldC3 0).img_hash ∧
    (refAt (fixAllSetsOfDuplicatedImages exWorldC3) 1).ref_path = "worlds/w/east_copy.webp" ∧
    "worlds/w/east.webp" ∈ (fixAllSetsOfDuplicatedImages exWorldC3).trash_queue := by
  decide

/-- Claim C4 counterexample: the declared path `modules/a/modules.png` has
first segment `modules`; substituting only the first segment would give
`worlds/a/modules.png`, which does not exist, so under the claim nothing
would change — but the code replaces every occurrence of `modules`,
obtains the existing `worlds/a/worlds.png`, reports a fix and repoints the
reference there. -/
theorem c4_counterexample :
    (segs exRefC4.ref_path).headD "" = "modules" ∧
    diskHas exWorldC4.disk "worlds/a/modules.png" = false ∧
    (tryToFixOneBrokenRef exWorldC4 0).2 = true ∧
    (refAt (tryToFixOneBrokenRef exWorldC4 0).1 0).ref_path = "worlds/a/worlds.png" := by
  decide

/-- Claim C7 counterexample: from a state in which one reference's stored
content hash is stale (out of sync with the bytes of its file on disk), the
second run of the consolidation pass makes further changes. -/
theorem c7_counterexample :
    fixAllSetsOfDuplicatedImages (fixAllSetsOfDuplicatedImages exWorldC7) ≠
      fixAllSetsOfDuplicatedImages exWorldC7 := by
  decide

/-- Claim C8 counterexample: a declared path lying lexically inside the
world folder but resolving only under the core data folder gets a content
hash even though the referenced file on disk is outside the managed
tree. -/
theorem c8_counterexample :
    exRefC8.img_exists = true ∧
    exRefC8.img_hash = some "HH" ∧
    exRefC8.img_path_on_disk = some "core/worlds/w/x.png" ∧
    inParents exEnv.world_folder "core/worlds/w/x.png" = false := by
  decide

/-! ### Basic lemmas about the embedding -/

theorem resolveRef_eq_none {e : Env} {d : Disk} {p : String}
    (h1 : diskHas d p = false)
    (h2 : diskHas d (joinPath e.core_data_folder p) = false)
    (h3 : diskHas d (unquote p) = false) :
    resolveRef e d p = none := by
  simp [resolveRef, h1, h2, h3]

theorem setEditable_of_resolve_none {e : Env} {d : Disk} {r : Ref} {p : String}
    (h : resolveRef e d p = none) :
    setEditableAttributes e d r p =
      { r with
        ref_path := p, ref_img_in_world_folder := inParents e.world_folder p,
        img_path_on_disk := none, img_exists := false,
        img_encoding := none, correct_extension := none,
        img_ref_external_web_link := strStarts p "http" } := by
  unfold setEditableAttributes
  rw [h]

theorem setEditable_ref_id (e : Env) (d : Disk) (r : Ref) (p : String) :
    (setEditableAttributes e d r p).ref_id = r.ref_id := by
  unfold setEditableAttributes
  cases resolveRef e d p <;> rfl

theorem setEditable_ref_path (e : Env) (d : Disk) (r : Ref) (p : String) :
    (setEditableAttributes e d r p).ref_path = p := by
  unfold setEditableAttributes
  cases resolveRef e d p <;> rfl

theorem diskHas_diskPut_self (d : Disk) (p : String) (fd : FileData) :
    diskHas (diskPut d p fd) p = true := by
  induction d with
  | nil => simp [diskPut, diskHas]
  | cons e rest ih =>
    by_cases h : e.1 = p
    · simp [diskPut, h, diskHas]
    · simp only [diskPut, if_neg h]
      simp [diskHas] at ih ⊢
      exact Or.inr ih

theorem diskHas_diskErase_self (d : Disk) (p : String) :
    diskHas (diskErase d p) p = false := by
  simp [diskHas, diskErase, List.any_filter]

/-! ### Claim C5: unresolved non-http references are classified broken -/

/-- Claim C5: a reference whose declared path fails all three resolution
attempts (literal, under the core data folder, percent-decoded) and whose
declared path does not start with `http`, once its facts are computed by
`set_editable_attributes`, is listed by `get_broken_refs`. -/
theorem c5_unresolved_nonhttp_is_broken (w : World) (r0 : Ref) (p : String)
    (h1 : diskHas w.disk p = false)
    (h2 : diskHas w.disk (joinPath w.env.core_data_folder p) = false)
    (h3 : diskHas w.disk (unquote p) = false)
    (h4 : strStarts p "http" = false)
    (hmem : setEditableAttributes w.env w.disk r0 p ∈ w.refs) :
    setEditableAttributes w.env w.disk r0 p ∈ getBrokenRefs w := by
  rw [getBrokenRefs, List.mem_filter]
  refine ⟨hmem, ?_⟩
  rw [setEditable_of_resolve_none (resolveRef_eq_none h1 h2 h3)]
  simp [h4]

/-- Disk and world for the C5 witness: nothing on disk, one reference with
an unresolvable non-http declared path. -/
def exWorldC5 : World :=
  { env := exEnv, disk := [], docs := [],
    refs := [setEditableAttributes exEnv [] default "worlds/w/missing.png"],
    trash_queue := [] }

/-- Witness for C5 at a concrete world. -/
theorem c5_witness :
    setEditableAttributes exWorldC5.env exWorldC5.disk default "worlds/w/missing.png" ∈
      getBrokenRefs exWorldC5 :=
  c5_unresolved_nonhttp_is_broken exWorldC5 default "worlds/w/missing.png"
    (by decide) (by decide) (by decide) (by decide) (by decide)

/-! ### Claim C8 (amended): when the hash is defined -/

/-- Claim C8 as amended: after any resolution, if the path resolved then
the content hash is defined exactly when the declared path lies lexically
inside the world folder (even though the resolved file itself may lie
outside, e.g. under the core data folder — see `c8_counterexample`); if the
path did not resolve, the previous hash value is retained unchanged. -/
theorem c8_hash_follows_declared_path (e : Env) (d : Disk) (r : Ref) (p : String) :
    ((setEditableAttributes e d r p).img_exists = true →
      ((setEditableAttributes e d r p).img_hash ≠ none ↔
        (setEditableAttributes e d r p).ref_img_in_world_folder = true)) ∧
    ((setEditableAttributes e d r p).img_exists = false →
      (setEditableAttributes e d r p).img_hash = r.img_hash) := by
  unfold setEditableAttributes
  cases resolveRef e d p with
  | none => simp
  | some ipod =>
    simp only []
    constructor
    · intro _
      by_cases h : inParents e.world_folder p = true
      · simp [h]
      · simp [h]
    · intro hfalse
      simp at hfalse

/-- Witness for the amended C8 at the concrete input of the
counterexample. -/
theorem c8_witness :
    (setEditableAttributes exEnv exDiskC8 default "worlds/w/x.png").img_hash ≠ none ↔
      (setEditableAttributes exEnv exDiskC8 default "worlds/w/x.png").ref_img_in_world_folder = true :=
  (c8_hash_follows_declared_path exEnv exDiskC8 default "worlds/w/x.png").1 (by decide)

theorem diskHas_diskPut_ne (d : Disk) (p q : String) (fd : FileData) (h : q ≠ p) :
    diskHas (diskPut d p fd) q = diskHas d q := by
  induction d with
  | nil =>
    simp [diskPut, diskHas]
    exact fun hq => h (Eq.symm hq)
  | cons e rest ih =>
    by_cases he : e.1 = p
    · subst he
      simp [diskPut, diskHas]
    · simp only [diskPut, if_neg he]
      simp [diskHas] at ih ⊢
      rw [ih]

/-! ### Claim C2 (amended): trash-move behavior -/

/-- Claim C2 as amended: executing the queued removals treats each queued
path as follows. A path that does not exist and whose percent-decoded-stem
variant does not exist either is skipped without effect. A path whose
chosen file exists but whose path string does not contain the world-folder
string is left untouched. A path whose file exists and whose path string
contains the world-folder string — a substring test, weaker than a subtree
test, see `c2_counterexample` — is moved (not copied: it disappears from
its location) into the `_trash` folder under its base name. The queued
removals are executed by folding this per-path step over the queue. -/
theorem c2_trash_move_behavior (e : Env) (d : Disk) (f : String) :
    (diskHas d f = false → diskHas d (withStem f (unquote (pathStem f))) = false →
      moveOneToTrash e d f = d) ∧
    (diskHas d f = true → strContains f e.world_folder = false →
      moveOneToTrash e d f = d) ∧
    (diskHas d f = true → strContains f e.world_folder = true →
      f ≠ joinPath (trashDir e) (pathName f) →
      diskHas (moveOneToTrash e d f) f = false ∧
      diskHas (moveOneToTrash e d f) (joinPath (trashDir e) (pathName f)) = true) ∧
    (∀ w : World, w.env = e → w.disk = d → w.trash_queue = [f] →
      (moveAllImgsInTrashQueueToTrash w).disk = moveOneToTrash e d f) := by
  refine ⟨?_, ?_, ?_, ?_⟩
  · intro h1 h2
    simp [moveOneToTrash, h1, h2]
  · intro h1 h2
    simp [moveOneToTrash, h1, h2]
  · intro h1 h2 hne
    simp only [moveOneToTrash, h1, if_true, h2, Bool.and_self, if_pos]
    simp only [diskRename, h1, if_pos]
    constructor
    · rw [diskHas_diskPut_ne _ _ _ _ hne]
      exact diskHas_diskErase_self d f
    · exact diskHas_diskPut_self _ _ _
  · intro w he hd hq
    simp [moveAllImgsInTrashQueueToTrash, hq, he, hd]

/-- Witness for the amended C2: the in-tree-looking queued file of the
counterexample world is moved to the trash folder, and a nonexistent
queued path is skipped. -/
theorem c2_witness :
    (diskHas (moveOneToTrash exEnv exDiskC2 "backup/worlds/w/east.webp") "backup/worlds/w/east.webp" = false ∧
      diskHas (moveOneToTrash exEnv exDiskC2 "backup/worlds/w/east.webp")
        (joinPath (trashDir exEnv) (pathName "backup/worlds/w/east.webp")) = true) ∧
    moveOneToTrash exEnv exDiskC2 "worlds/w/gone.png" = exDiskC2 :=
  ⟨(c2_trash_move_behavior exEnv exDiskC2 "backup/worlds/w/east.webp").2.2.1
      (by decide) (by decide) (by decide),
    (c2_trash_move_behavior exEnv exDiskC2 "worlds/w/gone.png").1 (by decide) (by decide)⟩

/-! ### Claim C4 (amended): legacy-path repair behavior -/

/-- Claim C4 as amended: for a reference whose declared path's first seven
characters are `modules` (a string-prefix test, not a first-segment test),
the repair replaces every occurrence of the substring `modules` in the
declared path by `worlds` (one attempt, no broader search); if the
resulting path is an existing file, the old path string is replaced by the
new one inside the leaf content, the content is pushed at the reference's
address, the reference's facts are re-resolved at the new path and the fix
is reported; otherwise nothing changes. -/
theorem c4_modules_replace_behavior (w : World) (i : Nat)
    (hseg : strTake (refAt w i).ref_path 7 = "modules") :
    (diskHas w.disk (strReplace (refAt w i).ref_path "modules" "worlds") = true →
      tryToFixOneBrokenRef w i =
        ({ w with
            refs := w.refs.set i (setEditableAttributes w.env w.disk (refAt w i)
              (strReplace (refAt w i).ref_path "modules" "worlds")),
            docs := pushContent w.docs (refAt w i)
              (strReplace (getContent w (refAt w i)) (refAt w i).ref_path
                (strReplace (refAt w i).ref_path "modules" "worlds")) }, true)) ∧
    (diskHas w.disk (strReplace (refAt w i).ref_path "modules" "worlds") = false →
      tryToFixOneBrokenRef w i = (w, false)) := by
  constructor
  · intro h
    simp [tryToFixOneBrokenRef, hseg, h]
  · intro h
    simp [tryToFixOneBrokenRef, hseg, h]

/-- Witness for the amended C4 at the concrete legacy-path world. -/
theorem c4_witness :
    tryToFixOneBrokenRef exWorldC4 0 =
      ({ exWorldC4 with
          refs := exWorldC4.refs.set 0 (setEditableAttributes exWorldC4.env exWorldC4.disk
            (refAt exWorldC4 0) (strReplace (refAt exWorldC4 0).ref_path "modules" "worlds")),
          docs := pushContent exWorldC4.docs (refAt exWorldC4 0)
            (strReplace (getContent exWorldC4 (refAt exWorldC4 0)) (refAt exWorldC4 0).ref_path
              (strReplace (refAt exWorldC4 0).ref_path "modules" "worlds")) }, true) :=
  (c4_modules_replace_behavior exWorldC4 0 (by decide)).1 (by decide)

/-! ### Claim C6: persistence with backups -/

theorem export_foldr_mem_split (l : List (String × List Json)) (x : String × List Json)
    (hx : x ∈ l) :
    ∃ pre post,
      l.foldr (fun pr acc =>
          FileOp.copy pr.1 (backupPath pr.1) :: FileOp.write pr.1 (exportContent pr.2) :: acc) [] =
        pre ++ [FileOp.copy x.1 (backupPath x.1), FileOp.write x.1 (exportContent x.2)] ++ post := by
  induction l with
  | nil => cases hx
  | cons a tl ih =>
    rcases List.mem_cons.mp hx with rfl | hx2
    · exact ⟨[], _, rfl⟩
    · obtain ⟨pre, post, heq⟩ := ih hx2
      refine ⟨FileOp.copy a.1 (backupPath a.1) :: FileOp.write a.1 (exportContent a.2) :: pre,
        post, ?_⟩
      simp [heq]

/-- Claim C6: for every loaded document file, the export first copies the
on-disk file to a backup whose name appends the literal `bak` to the
extension, then overwrites the file with its records serialized one compact
JSON value per line joined by line breaks; a single-object (json) document,
whose record list is a singleton, is written as that one JSON value, not
wrapped in an array. The two equations at the end exhibit the backup naming
on a json and a db path: the suffix is appended to, not replaced. -/
theorem c6_export_backup_then_write (f : FilesModel) (p : String) (recs : List Json)
    (hmem : (p, recs) ∈ allFiles f) :
    (∃ pre post, exportAllJsonAndDbFiles f =
      pre ++ [FileOp.copy p (backupPath p), FileOp.write p (exportContent recs)] ++ post) ∧
    (∀ o : Json, recs = [o] → exportContent recs = dumps o) ∧
    backupPath "worlds/w/world.json" = "worlds/w/world.jsonbak" ∧
    backupPath "worlds/w/data/actors.db" = "worlds/w/data/actors.dbbak" := by
  refine ⟨export_foldr_mem_split (allFiles f) (p, recs) hmem, ?_, by decide, by decide⟩
  intro o h
  subst h
  rfl

/-- Concrete loaded files for the C6 witness: one single-object json file,
one two-record db file. -/
def exFilesC6 : FilesModel :=
  { jsonFiles := [("worlds/w/world.json", [Json.obj [("title", Json.str "w")]])],
    dbFiles := [("worlds/w/data/actors.db", [Json.obj [], Json.num 3])] }

/-- Witness for C6 at the concrete loaded files. -/
theorem c6_witness :
    (∃ pre post, exportAllJsonAndDbFiles exFilesC6 =
      pre ++ [FileOp.copy "worlds/w/world.json" (backupPath "worlds/w/world.json"),
        FileOp.write "worlds/w/world.json"
          (exportContent [Json.obj [("title", Json.str "w")]])] ++ post) ∧
    exportContent [Json.obj [("title", Json.str "w")]] = dumps (Json.obj [("title", Json.str "w")]) :=
  ⟨(c6_export_backup_then_write exFilesC6 "worlds/w/world.json"
      [Json.obj [("title", Json.str "w")]] (List.mem_cons_self _ _)).1,
    (c6_export_backup_then_write exFilesC6 "worlds/w/world.json"
      [Json.obj [("title", Json.str "w")]] (List.mem_cons_self _ _)).2.1 _ rfl⟩

/-! ### Claim C9: identical ids for all references of one HTML leaf -/

theorem mkRef_ref_id (e : Env) (d : Disk) (rft rfp : String) (l : Option Nat)
    (addr : List AddrPart) (s : String) :
    (mkRef e d rft rfp l addr s).ref_id = refIdOf e rfp rft l addr := by
  simp [mkRef, setEditable_ref_id]

theorem assocFind_assocPut_self {κ ν : Type} [DecidableEq κ]
    (m : List (κ × ν)) (k : κ) (v : ν) :
    assocFind (assocPut m k v) k = some v := by
  induction m with
  | nil => simp [assocPut, assocFind]
  | cons e rest ih =>
    by_cases h : e.1 = k
    · simp [assocPut, h, assocFind]
    · simp only [assocPut, if_neg h]
      simp [assocFind, List.find?_cons, h] at ih ⊢
      exact ih

theorem processHtmlLeaf_spec (e : Env) (d : Disk) (rft rfp : String) (line : Nat)
    (addr : List AddrPart) (srcs : List String) (acc : List Ref × List (String × Ref))
    (hne : srcs ≠ []) :
    (processHtmlLeaf e d rft rfp line addr srcs acc).1 =
      acc.1 ++ srcs.map (mkRef e d rft rfp (if rft = "db" then some line else none) addr) ∧
    assocFind (processHtmlLeaf e d rft rfp line addr srcs acc).2
        (refIdOf e rfp rft (if rft = "db" then some line else none) addr) =
      some (mkRef e d rft rfp (if rft = "db" then some line else none) addr (srcs.getLastD "")) := by
  induction srcs generalizing acc with
  | nil => exact absurd rfl hne
  | cons s rest ih =>
    cases rest with
    | nil =>
      constructor
      · simp [processHtmlLeaf]
      · simp only [processHtmlLeaf, List.foldl_cons, List.foldl_nil, List.getLastD_cons,
          List.getLastD_nil]
        rw [mkRef_ref_id]
        exact assocFind_assocPut_self _ _ _
    | cons b bs =>
      have step : processHtmlLeaf e d rft rfp line addr (s :: b :: bs) acc =
          processHtmlLeaf e d rft rfp line addr (b :: bs)
            (acc.1 ++ [mkRef e d rft rfp (if rft = "db" then some line else none) addr s],
             assocPut acc.2
               (mkRef e d rft rfp (if rft = "db" then some line else none) addr s).ref_id
               (mkRef e d rft rfp (if rft = "db" then some line else none) addr s)) := by
        simp [processHtmlLeaf]
      obtain ⟨ih1, ih2⟩ := ih _ (by simp)
      refine ⟨?_, ?_⟩
      · rw [step, ih1]
        simp
      · rw [step, ih2]
        simp [List.getLastD_cons]

/-- Claim C9: the id of a reference is computed only from the world folder,
the core data folder, the containing file's path and kind, the record line
and the JSON address — never from the declared image path. Hence all
references extracted from one HTML leaf share one id, the scan appends one
reference per extracted source path, and the by-id index maps the shared id
to the last reference created. -/
theorem c9_html_leaf_shares_one_id (e : Env) (d : Disk) (rft rfp : String) (line : Nat)
    (addr : List AddrPart) (srcs : List String) (acc : List Ref × List (String × Ref))
    (hne : srcs ≠ []) :
    (∀ s, s ∈ srcs → (mkRef e d rft rfp (if rft = "db" then some line else none) addr s).ref_id =
      refIdOf e rfp rft (if rft = "db" then some line else none) addr) ∧
    (processHtmlLeaf e d rft rfp line addr srcs acc).1 =
      acc.1 ++ srcs.map (mkRef e d rft rfp (if rft = "db" then some line else none) addr) ∧
    assocFind (processHtmlLeaf e d rft rfp line addr srcs acc).2
        (refIdOf e rfp rft (if rft = "db" then some line else none) addr) =
      some (mkRef e d rft rfp (if rft = "db" then some line else none) addr (srcs.getLastD "")) :=
  ⟨fun s _ => mkRef_ref_id e d rft rfp _ addr s,
    (processHtmlLeaf_spec e d rft rfp line addr srcs acc hne).1,
    (processHtmlLeaf_spec e d rft rfp line addr srcs acc hne).2⟩

/-- Witness for C9: one HTML leaf with two distinct image sources produces
two references with one shared id, and the by-id index retains the last. -/
theorem c9_witness :
    (∀ s, s ∈ ["worlds/w/a.png", "worlds/w/b.png"] →
      (mkRef exEnv exDiskC1 "db" "worlds/w/data/a.db" (if "db" = "db" then some 0 else none)
        [AddrPart.key "content"] s).ref_id =
      refIdOf exEnv "worlds/w/data/a.db" "db" (if "db" = "db" then some 0 else none)
        [AddrPart.key "content"]) ∧
    (processHtmlLeaf exEnv exDiskC1 "db" "worlds/w/data/a.db" 0 [AddrPart.key "content"]
        ["worlds/w/a.png", "worlds/w/b.png"] ([], [])).1 =
      ([] : List Ref) ++ ["worlds/w/a.png", "worlds/w/b.png"].map
        (mkRef exEnv exDiskC1 "db" "worlds/w/data/a.db" (if "db" = "db" then some 0 else none)
          [AddrPart.key "content"]) ∧
    assocFind (processHtmlLeaf exEnv exDiskC1 "db" "worlds/w/data/a.db" 0 [AddrPart.key "content"]
        ["worlds/w/a.png", "worlds/w/b.png"] ([], [])).2
        (refIdOf exEnv "worlds/w/data/a.db" "db" (if "db" = "db" then some 0 else none)
          [AddrPart.key "content"]) =
      some (mkRef exEnv exDiskC1 "db" "worlds/w/data/a.db" (if "db" = "db" then some 0 else none)
        [AddrPart.key "content"] (["worlds/w/a.png", "worlds/w/b.png"].getLastD "")) :=
  c9_html_leaf_shares_one_id exEnv exDiskC1 "db" "worlds/w/data/a.db" 0 [AddrPart.key "content"]
    ["worlds/w/a.png", "worlds/w/b.png"] ([], []) (by simp)

/-! ### Lemmas about the grouping primitives -/

theorem mem_dedupFirstAux {α : Type} [DecidableEq α] (seen l : List α) (a : α) :
    a ∈ dedupFirstAux seen l ↔ a ∈ l ∧ a ∉ seen := by
  induction l generalizing seen with
  | nil => simp [dedupFirstAux]
  | cons b rest ih =>
    by_cases hb : b ∈ seen
    · rw [dedupFirstAux, if_pos hb, ih]
      constructor
      · exact fun ⟨h1, h2⟩ => ⟨List.mem_cons_of_mem b h1, h2⟩
      · rintro ⟨h1, h2⟩
        rcases List.mem_cons.mp h1 with rfl | h1
        · exact absurd hb h2
        · exact ⟨h1, h2⟩
    · rw [dedupFirstAux, if_neg hb]
      constructor
      · intro hmem
        rcases List.mem_cons.mp hmem with rfl | hmem
        · exact ⟨List.mem_cons_self a rest, hb⟩
        · obtain ⟨h1, h2⟩ := (ih (b :: seen)).mp hmem
          exact ⟨List.mem_cons_of_mem b h1, fun hs => h2 (List.mem_cons_of_mem b hs)⟩
      · rintro ⟨h1, h2⟩
        rcases List.mem_cons.mp h1 with rfl | h1
        · exact List.mem_cons_self a _
        · by_cases hab : a = b
          · subst hab
            exact List.mem_cons_self a _
          · refine List.mem_cons_of_mem _ ((ih (b :: seen)).mpr ⟨h1, ?_⟩)
            intro hs
            rcases List.mem_cons.mp hs with h | h
            · exact hab h
            · exact h2 h

theorem mem_dedupFirst {α : Type} [DecidableEq α] (l : List α) (a : α) :
    a ∈ dedupFirst l ↔ a ∈ l := by
  simp [dedupFirst, mem_dedupFirstAux]

theorem nodup_dedupFirstAux {α : Type} [DecidableEq α] (seen l : List α) :
    (dedupFirstAux seen l).Nodup := by
  induction l generalizing seen with
  | nil => simp [dedupFirstAux]
  | cons b rest ih =>
    by_cases hb : b ∈ seen
    · rw [dedupFirstAux, if_pos hb]
      exact ih seen
    · rw [dedupFirstAux, if_neg hb]
      refine List.nodup_cons.mpr ⟨?_, ih (b :: seen)⟩
      intro hmem
      exact ((mem_dedupFirstAux (b :: seen) rest b).mp hmem).2 (List.mem_cons_self b seen)

theorem nodup_dedupFirst {α : Type} [DecidableEq α] (l : List α) :
    (dedupFirst l).Nodup := nodup_dedupFirstAux [] l

theorem dedupFirst_length_le_one {α : Type} [DecidableEq α] (l : List α) (a : α)
    (h : ∀ x ∈ l, x = a) : (dedupFirst l).length ≤ 1 := by
  rcases hd : dedupFirst l with _ | ⟨x, _ | ⟨y, rest⟩⟩
  · simp
  · simp
  · exfalso
    have hx : x ∈ dedupFirst l := by rw [hd]; exact List.mem_cons_self _ _
    have hy : y ∈ dedupFirst l := by rw [hd]; simp
    have hnd := nodup_dedupFirst l
    rw [hd] at hnd
    have hxy : x ≠ y := by
      have := List.nodup_cons.mp hnd
      exact fun he => this.1 (he ▸ List.mem_cons_self y rest)
    exact hxy ((h x ((mem_dedupFirst l x).mp hx)).trans (h y ((mem_dedupFirst l y).mp hy)).symm)

theorem mem_idxsWhere (P : Ref → Bool) (refs : List Ref) (i : Nat) :
    i ∈ idxsWhere P refs ↔ i < refs.length ∧ P (refs.getD i default) = true := by
  simp [idxsWhere, List.mem_filter, List.mem_range]

theorem nodup_idxsWhere (P : Ref → Bool) (refs : List Ref) :
    (idxsWhere P refs).Nodup :=
  List.Nodup.filter _ (List.nodup_range _)

theorem mem_queueInsert (q : List String) (x p : String) :
    p ∈ queueInsert q x ↔ p ∈ q ∨ p = x := by
  by_cases h : x ∈ q
  · rw [queueInsert, if_pos h]
    constructor
    · exact Or.inl
    · rintro (hp | rfl)
      · exact hp
      · exact h
  · rw [queueInsert, if_neg h]
    simp

theorem getD_set_self {α : Type} [Inhabited α] (l : List α) (i : Nat) (v : α)
    (h : i < l.length) : (l.set i v).getD i default = v := by
  rw [List.getD_eq_getElem?_getD, List.getElem?_set]
  simp [h]

theorem getD_set_ne {α : Type} [Inhabited α] (l : List α) (i j : Nat) (v : α)
    (h : j ≠ i) : (l.set i v).getD j default = l.getD j default := by
  rw [List.getD_eq_getElem?_getD, List.getElem?_set, if_neg (fun he => h (Eq.symm he)),
    List.getD_eq_getElem?_getD]

/-! ### Effect of the inner repoint loop on the world -/

theorem fixOneRef_env (main : String) (w : World) (i : Nat) :
    (fixOneRefToMain main w i).env = w.env := rfl

theorem fixOneRef_disk (main : String) (w : World) (i : Nat) :
    (fixOneRefToMain main w i).disk = w.disk := rfl

theorem fixOneRef_queue (main : String) (w : World) (i : Nat) :
    (fixOneRefToMain main w i).trash_queue = w.trash_queue := rfl

theorem fixOneRef_refs (main : String) (w : World) (i : Nat) :
    (fixOneRefToMain main w i).refs =
      w.refs.set i (setEditableAttributes w.env w.disk (refAt w i) main) := rfl

theorem foldl_fixOneRef_env (main : String) (idxs : List Nat) (w : World) :
    (idxs.foldl (fixOneRefToMain main) w).env = w.env := by
  induction idxs generalizing w with
  | nil => rfl
  | cons j rest ih => rw [List.foldl_cons, ih, fixOneRef_env]

theorem foldl_fixOneRef_disk (main : String) (idxs : List Nat) (w : World) :
    (idxs.foldl (fixOneRefToMain main) w).disk = w.disk := by
  induction idxs generalizing w with
  | nil => rfl
  | cons j rest ih => rw [List.foldl_cons, ih, fixOneRef_disk]

theorem foldl_fixOneRef_queue (main : String) (idxs : List Nat) (w : World) :
    (idxs.foldl (fixOneRefToMain main) w).trash_queue = w.trash_queue := by
  induction idxs generalizing w with
  | nil => rfl
  | cons j rest ih => rw [List.foldl_cons, ih, fixOneRef_queue]

theorem foldl_fixOneRef_length (main : String) (idxs : List Nat) (w : World) :
    (idxs.foldl (fixOneRefToMain main) w).refs.length = w.refs.length := by
  induction idxs generalizing w with
  | nil => rfl
  | cons j rest ih => rw [List.foldl_cons, ih, fixOneRef_refs, List.length_set]

theorem foldl_fixOneRef_frame (main : String) (idxs : List Nat) (w : World) (i : Nat)
    (hout : i ∉ idxs) :
    refAt (idxs.foldl (fixOneRefToMain main) w) i = refAt w i := by
  induction idxs generalizing w with
  | nil => rfl
  | cons j rest ih =>
    rw [List.foldl_cons, ih _ (fun hmem => hout (List.mem_cons_of_mem j hmem))]
    have hij : i ≠ j := fun he => hout (he ▸ List.mem_cons_self j rest)
    show (fixOneRefToMain main w j).refs.getD i default = refAt w i
    rw [fixOneRef_refs]
    exact getD_set_ne _ _ _ _ hij

theorem foldl_fixOneRef_update (main : String) (idxs : List Nat) (w : World) (i : Nat)
    (hnd : idxs.Nodup) (hi : i < w.refs.length) (hin : i ∈ idxs) :
    refAt (idxs.foldl (fixOneRefToMain main) w) i =
      setEditableAttributes w.env w.disk (refAt w i) main := by
  induction idxs generalizing w with
  | nil => cases hin
  | cons j rest ih =>
    obtain ⟨hj, hrest⟩ := List.nodup_cons.mp hnd
    rw [List.foldl_cons]
    by_cases hij : i = j
    · subst hij
      rw [foldl_fixOneRef_frame main rest _ i hj]
      show (fixOneRefToMain main w i).refs.getD i default = _
      rw [fixOneRef_refs]
      exact getD_set_self _ _ _ hi
    · have hin2 : i ∈ rest := by
        rcases List.mem_cons.mp hin with h | h
        · exact absurd h hij
        · exact h
      rw [ih _ hrest (by rw [fixOneRef_refs, List.length_set]; exact hi) hin2,
        fixOneRef_env, fixOneRef_disk]
      congr 1
      show (fixOneRefToMain main w j).refs.getD i default = refAt w i
      rw [fixOneRef_refs]
      exact getD_set_ne _ _ _ _ hij

/-! ### Effect of one consolidation group on the world -/

/-- The reference indices a group's fix touches: every bucket after the
canonical first key. -/
def groupTouched (g : List (String × List Nat)) : List Nat :=
  (g.tail.map (fun pr => pr.2)).flatten

theorem fixOneSet_cons_step (w : World) (main : String) (b0 : List Nat)
    (pr : String × List Nat) (rest : List (String × List Nat)) :
    fixOneSetOfDuplicatedImages w ((main, b0) :: pr :: rest) =
      fixOneSetOfDuplicatedImages
        { (pr.2.foldl (fixOneRefToMain main) w) with
          trash_queue := queueInsert (pr.2.foldl (fixOneRefToMain main) w).trash_queue pr.1 }
        ((main, b0) :: rest) := rfl

theorem fixOneSet_env (main : String) (b0 : List Nat) (rest : List (String × List Nat)) :
    ∀ w : World, (fixOneSetOfDuplicatedImages w ((main, b0) :: rest)).env = w.env := by
  induction rest with
  | nil => intro w; rfl
  | cons pr rest' ih =>
    intro w
    rw [fixOneSet_cons_step, ih]
    show (pr.2.foldl (fixOneRefToMain main) w).env = w.env
    exact foldl_fixOneRef_env main pr.2 w

theorem fixOneSet_disk (main : String) (b0 : List Nat) (rest : List (String × List Nat)) :
    ∀ w : World, (fixOneSetOfDuplicatedImages w ((main, b0) :: rest)).disk = w.disk := by
  induction rest with
  | nil => intro w; rfl
  | cons pr rest' ih =>
    intro w
    rw [fixOneSet_cons_step, ih]
    show (pr.2.foldl (fixOneRefToMain main) w).disk = w.disk
    exact foldl_fixOneRef_disk main pr.2 w

theorem fixOneSet_length (main : String) (b0 : List Nat) (rest : List (String × List Nat)) :
    ∀ w : World, (fixOneSetOfDuplicatedImages w ((main, b0) :: rest)).refs.length = w.refs.length := by
  induction rest with
  | nil => intro w; rfl
  | cons pr rest' ih =>
    intro w
    rw [fixOneSet_cons_step, ih]
    show (pr.2.foldl (fixOneRefToMain main) w).refs.length = w.refs.length
    exact foldl_fixOneRef_length main pr.2 w

theorem fixOneSet_frame (main : String) (b0 : List Nat) (rest : List (String × List Nat)) :
    ∀ (w : World) (i : Nat), i ∉ groupTouched ((main, b0) :: rest) →
      refAt (fixOneSetOfDuplicatedImages w ((main, b0) :: rest)) i = refAt w i := by
  induction rest with
  | nil => intro w i _; rfl
  | cons pr rest' ih =>
    intro w i hout
    have hsplit : i ∉ pr.2 ∧ i ∉ groupTouched ((main, b0) :: rest') := by
      simp [groupTouched] at hout ⊢
      exact ⟨hout.1, hout.2⟩
    rw [fixOneSet_cons_step, ih _ i hsplit.2]
    show refAt (pr.2.foldl (fixOneRefToMain main) w) i = refAt w i
    exact foldl_fixOneRef_frame main pr.2 w i hsplit.1

theorem fixOneSet_update (main : String) (b0 : List Nat) (rest : List (String × List Nat)) :
    ∀ (w : World) (i : Nat), (groupTouched ((main, b0) :: rest)).Nodup →
      i < w.refs.length → i ∈ groupTouched ((main, b0) :: rest) →
      refAt (fixOneSetOfDuplicatedImages w ((main, b0) :: rest)) i =
        setEditableAttributes w.env w.disk (refAt w i) main := by
  induction rest with
  | nil => intro w i _ _ hin; cases hin
  | cons pr rest' ih =>
    intro w i hnd hi hin
    have htch : groupTouched ((main, b0) :: pr :: rest') =
        pr.2 ++ groupTouched ((main, b0) :: rest') := by
      simp [groupTouched]
    rw [htch] at hnd hin
    have hdisj := List.disjoint_of_nodup_append hnd
    rcases List.mem_append.mp hin with hbkt | hrest
    · have hout2 : i ∉ groupTouched ((main, b0) :: rest') := fun hmem => hdisj hbkt hmem
      rw [fixOneSet_cons_step, fixOneSet_frame _ _ _ _ i hout2]
      show refAt (pr.2.foldl (fixOneRefToMain main) w) i = _
      exact foldl_fixOneRef_update main pr.2 w i ((List.nodup_append.mp hnd).1) hi hbkt
    · have hout1 : i ∉ pr.2 := fun hmem => hdisj hmem hrest
      rw [fixOneSet_cons_step,
        ih _ i ((List.nodup_append.mp hnd).2.1
          ) (by
            show i < (pr.2.foldl (fixOneRefToMain main) w).refs.length
            rw [foldl_fixOneRef_length]
            exact hi) hrest]
      have henv : (pr.2.foldl (fixOneRefToMain main) w).env = w.env :=
        foldl_fixOneRef_env main pr.2 w
      have hdisk : (pr.2.foldl (fixOneRefToMain main) w).disk = w.disk :=
        foldl_fixOneRef_disk main pr.2 w
      have hrefs : refAt (pr.2.foldl (fixOneRefToMain main) w) i = refAt w i :=
        foldl_fixOneRef_frame main pr.2 w i hout1
      show setEditableAttributes (pr.2.foldl (fixOneRefToMain main) w).env
          (pr.2.foldl (fixOneRefToMain main) w).disk
          (refAt (pr.2.foldl (fixOneRefToMain main) w) i) main = _
      rw [henv, hdisk, hrefs]

theorem fixOneSet_queue_iff (g : List (String × List Nat)) :
    ∀ (w : World) (p : String),
      p ∈ (fixOneSetOfDuplicatedImages w g).trash_queue ↔
        p ∈ w.trash_queue ∨ p ∈ g.tail.map (fun pr => pr.1) := by
  rcases g with _ | ⟨⟨main, b0⟩, rest⟩
  · intro w p
    simp [fixOneSetOfDuplicatedImages]
  · induction rest with
    | nil => intro w p; simp [fixOneSetOfDuplicatedImages]
    | cons pr rest' ih =>
      intro w p
      rw [fixOneSet_cons_step, ih]
      show p ∈ queueInsert (pr.2.foldl (fixOneRefToMain main) w).trash_queue pr.1 ∨ _ ↔ _
      rw [mem_queueInsert, foldl_fixOneRef_queue]
      simp only [List.tail_cons, List.map_cons, List.mem_cons]
      constructor
      · rintro ((hq | rfl) | hr)
        · exact Or.inl hq
        · exact Or.inr (Or.inl rfl)
        · exact Or.inr (Or.inr hr)
      · rintro (hq | (rfl | hr))
        · exact Or.inl (Or.inl hq)
        · exact Or.inl (Or.inr rfl)
        · exact Or.inr hr

/-! ### Effect of the whole consolidation pass -/

/-- All reference indices touched by a list of (hash, group) entries. -/
def pairsTouched (L : List (Option String × List (String × List Nat))) : List Nat :=
  (L.map (fun e => groupTouched e.2)).flatten

/-- The canonical (first) key of a group. -/
def mainOf (g : List (String × List Nat)) : String := (g.headD ("", [])).1

theorem fixOneSet_env' (g : List (String × List Nat)) (w : World) :
    (fixOneSetOfDuplicatedImages w g).env = w.env := by
  rcases g with _ | ⟨⟨main, b0⟩, rest⟩
  · rfl
  · exact fixOneSet_env main b0 rest w

theorem fixOneSet_disk' (g : List (String × List Nat)) (w : World) :
    (fixOneSetOfDuplicatedImages w g).disk = w.disk := by
  rcases g with _ | ⟨⟨main, b0⟩, rest⟩
  · rfl
  · exact fixOneSet_disk main b0 rest w

theorem fixOneSet_length' (g : List (String × List Nat)) (w : World) :
    (fixOneSetOfDuplicatedImages w g).refs.length = w.refs.length := by
  rcases g with _ | ⟨⟨main, b0⟩, rest⟩
  · rfl
  · exact fixOneSet_length main b0 rest w

theorem fixOneSet_frame' (g : List (String × List Nat)) (w : World) (i : Nat)
    (hout : i ∉ groupTouched g) :
    refAt (fixOneSetOfDuplicatedImages w g) i = refAt w i := by
  rcases g with _ | ⟨⟨main, b0⟩, rest⟩
  · rfl
  · exact fixOneSet_frame main b0 rest w i hout

theorem foldl_pairs_env (L : List (Option String × List (String × List Nat))) :
    ∀ w : World, (L.foldl (fun w e => fixOneSetOfDuplicatedImages w e.2) w).env = w.env := by
  induction L with
  | nil => intro w; rfl
  | cons f L' ih =>
    intro w
    rw [List.foldl_cons, ih, fixOneSet_env']

theorem foldl_pairs_disk (L : List (Option String × List (String × List Nat))) :
    ∀ w : World, (L.foldl (fun w e => fixOneSetOfDuplicatedImages w e.2) w).disk = w.disk := by
  induction L with
  | nil => intro w; rfl
  | cons f L' ih =>
    intro w
    rw [List.foldl_cons, ih, fixOneSet_disk']

theorem foldl_pairs_length (L : List (Option String × List (String × List Nat))) :
    ∀ w : World,
      (L.foldl (fun w e => fixOneSetOfDuplicatedImages w e.2) w).refs.length = w.refs.length := by
  induction L with
  | nil => intro w; rfl
  | cons f L' ih =>
    intro w
    rw [List.foldl_cons, ih, fixOneSet_length']

theorem foldl_pairs_frame (L : List (Option String × List (String × List Nat))) :
    ∀ (w : World) (i : Nat), (∀ e ∈ L, i ∉ groupTouched e.2) →
      refAt (L.foldl (fun w e => fixOneSetOfDuplicatedImages w e.2) w) i = refAt w i := by
  induction L with
  | nil => intro w i _; rfl
  | cons f L' ih =>
    intro w i hout
    rw [List.foldl_cons, ih _ i (fun e he => hout e (List.mem_cons_of_mem f he))]
    exact fixOneSet_frame' f.2 w i (hout f (List.mem_cons_self f L'))

theorem mem_pairsTouched (L : List (Option String × List (String × List Nat))) (i : Nat) :
    i ∈ pairsTouched L ↔ ∃ e ∈ L, i ∈ groupTouched e.2 := by
  simp only [pairsTouched, List.mem_flatten, List.mem_map]
  constructor
  · rintro ⟨l, ⟨e, he, rfl⟩, hi⟩
    exact ⟨e, he, hi⟩
  · rintro ⟨e, he, hi⟩
    exact ⟨groupTouched e.2, ⟨e, he, rfl⟩, hi⟩

theorem foldl_pairs_update (L : List (Option String × List (String × List Nat))) :
    ∀ (w : World) (i : Nat) (e : Option String × List (String × List Nat)),
      (pairsTouched L).Nodup → i < w.refs.length → e ∈ L → i ∈ groupTouched e.2 →
      refAt (L.foldl (fun w e => fixOneSetOfDuplicatedImages w e.2) w) i =
        setEditableAttributes w.env w.disk (refAt w i) (mainOf e.2) := by
  induction L with
  | nil => intro w i e _ _ he _; cases he
  | cons f L' ih =>
    intro w i e hnd hi he hin
    have htch : pairsTouched (f :: L') = groupTouched f.2 ++ pairsTouched L' := by
      simp [pairsTouched]
    rw [htch] at hnd
    have hdisj := List.disjoint_of_nodup_append hnd
    rw [List.foldl_cons]
    rcases List.mem_cons.mp he with rfl | he2
    · rcases hg : e.2 with _ | ⟨⟨m, b⟩, rest⟩
      · rw [hg] at hin
        cases hin
      · have hout2 : ∀ e2 ∈ L', i ∉ groupTouched e2.2 := by
          intro e2 he2 hmem
          exact hdisj (hg ▸ hin) ((mem_pairsTouched L' i).mpr ⟨e2, he2, hmem⟩)
        have hnd1 : (groupTouched ((m, b) :: rest)).Nodup := by
          rw [← hg]
          exact (List.nodup_append.mp hnd).1
        have hin1 : i ∈ groupTouched ((m, b) :: rest) := by
          rw [← hg]
          exact hin
        rw [foldl_pairs_frame L' _ i hout2,
          fixOneSet_update m b rest w i hnd1 hi hin1]
        rfl
    · have hmem2 : i ∈ pairsTouched L' := (mem_pairsTouched L' i).mpr ⟨e, he2, hin⟩
      have hout1 : i ∉ groupTouched f.2 := fun hmem => hdisj hmem hmem2
      have key := ih (fixOneSetOfDuplicatedImages w f.2) i e
        ((List.nodup_append.mp hnd).2.1) (by rw [fixOneSet_length']; exact hi) he2 hin
      rw [key, fixOneSet_env', fixOneSet_disk', fixOneSet_frame' f.2 w i hout1]

theorem foldl_pairs_queue (L : List (Option String × List (String × List Nat))) :
    ∀ (w : World) (p : String),
      p ∈ (L.foldl (fun w e => fixOneSetOfDuplicatedImages w e.2) w).trash_queue ↔
        p ∈ w.trash_queue ∨ ∃ e ∈ L, p ∈ e.2.tail.map (fun pr => pr.1) := by
  induction L with
  | nil => intro w p; simp
  | cons f L' ih =>
    intro w p
    rw [List.foldl_cons, ih, fixOneSet_queue_iff]
    constructor
    · rintro ((hq | hf) | ⟨e, he, hp⟩)
      · exact Or.inl hq
      · exact Or.inr ⟨f, List.mem_cons_self f L', hf⟩
      · exact Or.inr ⟨e, List.mem_cons_of_mem f he, hp⟩
    · rintro (hq | ⟨e, he, hp⟩)
      · exact Or.inl (Or.inl hq)
      · rcases List.mem_cons.mp he with rfl | he2
        · exact Or.inl (Or.inr hp)
        · exact Or.inr ⟨e, he2, hp⟩

/-! ### Structure of the hash-by-image index -/

/-- The distinct declared paths of the references with hash `h`, in scan
order. -/
def hashPaths (w : World) (h : Option String) : List String :=
  dedupFirst ((w.refs.filter (fun r => decide (r.img_hash = h))).map (fun r => r.ref_path))

theorem hashGroup_eq (w : World) (h : Option String) :
    hashGroup w h = (hashPaths w h).map
      (fun p => (p, idxsWhere (fun r => decide (r.img_hash = h ∧ r.ref_path = p)) w.refs)) := rfl

theorem hashGroup_length (w : World) (h : Option String) :
    (hashGroup w h).length = (hashPaths w h).length := by
  rw [hashGroup_eq, List.length_map]

theorem hashGroup_tail (w : World) (h : Option String) :
    (hashGroup w h).tail = (hashPaths w h).tail.map
      (fun p => (p, idxsWhere (fun r => decide (r.img_hash = h ∧ r.ref_path = p)) w.refs)) := by
  rw [hashGroup_eq, ← List.map_tail]

theorem mem_groupTouched_hashGroup (w : World) (h : Option String) (i : Nat) :
    i ∈ groupTouched (hashGroup w h) ↔
      ∃ p, p ∈ (hashPaths w h).tail ∧ i < w.refs.length ∧
        (refAt w i).img_hash = h ∧ (refAt w i).ref_path = p := by
  rw [groupTouched, hashGroup_tail, List.map_map]
  simp only [List.mem_flatten, List.mem_map, Function.comp]
  constructor
  · rintro ⟨l, ⟨p, hp, rfl⟩, hi⟩
    obtain ⟨hlen, hP⟩ := (mem_idxsWhere _ _ _).mp hi
    rw [decide_eq_true_iff] at hP
    exact ⟨p, hp, hlen, hP.1, hP.2⟩
  · rintro ⟨p, hp, hlen, hh, hpath⟩
    refine ⟨_, ⟨p, hp, rfl⟩, (mem_idxsWhere _ _ _).mpr ⟨hlen, ?_⟩⟩
    rw [decide_eq_true_iff]
    exact ⟨hh, hpath⟩

theorem touched_hash_of_mem (w : World) (h : Option String) (i : Nat)
    (hin : i ∈ groupTouched (hashGroup w h)) :
    i < w.refs.length ∧ (refAt w i).img_hash = h := by
  obtain ⟨p, _, hlen, hh, _⟩ := (mem_groupTouched_hashGroup w h i).mp hin
  exact ⟨hlen, hh⟩

theorem nodup_groupTouched_hashGroup (w : World) (h : Option String) :
    (groupTouched (hashGroup w h)).Nodup := by
  rw [groupTouched, hashGroup_tail, List.map_map, List.nodup_flatten]
  simp only [Function.comp_def]
  constructor
  · intro l hl
    obtain ⟨p, _, rfl⟩ := List.mem_map.mp hl
    exact nodup_idxsWhere _ _
  · rw [List.pairwise_map]
    have hnd : ((hashPaths w h).tail).Pairwise (· ≠ ·) :=
      ((nodup_dedupFirst _).sublist (List.tail_sublist _))
    refine hnd.imp ?_
    intro p q hpq i hi hj
    obtain ⟨_, hP⟩ := (mem_idxsWhere _ _ _).mp hi
    obtain ⟨_, hQ⟩ := (mem_idxsWhere _ _ _).mp hj
    rw [decide_eq_true_iff] at hP hQ
    exact hpq (hP.2 ▸ hQ.2)

theorem mem_refsIndexedByHashByImg (w : World) (x : Option String × List (String × List Nat)) :
    x ∈ refsIndexedByHashByImg w ↔
      ∃ h, h ∈ dedupFirst (w.refs.map (fun r => r.img_hash)) ∧ x = (h, hashGroup w h) := by
  rw [refsIndexedByHashByImg]
  simp only [List.mem_map]
  constructor
  · rintro ⟨h, hh, rfl⟩
    exact ⟨h, hh, rfl⟩
  · rintro ⟨h, hh, rfl⟩
    exact ⟨h, hh, rfl⟩

theorem mem_getDuplicatedImages (w : World) (x : Option String × List (String × List Nat)) :
    x ∈ getDuplicatedImages w ↔
      (∃ h, h ∈ dedupFirst (w.refs.map (fun r => r.img_hash)) ∧ x = (h, hashGroup w h)) ∧
        1 < x.2.length ∧ x.1 ≠ none := by
  rw [getDuplicatedImages, List.mem_filter, mem_refsIndexedByHashByImg]
  simp

theorem nodup_pairsTouched_dup (w : World) :
    (pairsTouched (getDuplicatedImages w)).Nodup := by
  rw [pairsTouched, List.nodup_flatten]
  constructor
  · intro l hl
    obtain ⟨e, he, rfl⟩ := List.mem_map.mp hl
    obtain ⟨⟨h, _, rfl⟩, _, _⟩ := (mem_getDuplicatedImages w e).mp he
    exact nodup_groupTouched_hashGroup w h
  · rw [List.pairwise_map]
    have h1 : (refsIndexedByHashByImg w).Pairwise (fun a b => a.1 ≠ b.1) := by
      rw [refsIndexedByHashByImg, List.pairwise_map]
      exact (nodup_dedupFirst _).imp (fun hab => hab)
    have h2 : (getDuplicatedImages w).Pairwise (fun a b => a.1 ≠ b.1) :=
      List.Pairwise.filter _ h1
    refine List.Pairwise.imp_of_mem ?_ h2
    intro a b ha hb hne i hia hib
    obtain ⟨⟨h, _, rfl⟩, _, _⟩ := (mem_getDuplicatedImages w a).mp ha
    obtain ⟨⟨h', _, rfl⟩, _, _⟩ := (mem_getDuplicatedImages w b).mp hb
    exact hne (((touched_hash_of_mem w h i hia).2.symm.trans
      (touched_hash_of_mem w h' i hib).2) ▸ rfl)

/-! ### Hash/resolution consistency and the consolidation pass -/

/-- What a resolution of `p` would assign as the content hash: `none` when
`p` does not resolve (the field would be carried over), `some v` when it
resolves and `v` is the value assigned. -/
def hashAt (e : Env) (d : Disk) (p : String) : Option (Option String) :=
  (resolveRef e d p).map
    (fun ipod => if inParents e.world_folder p then some (lookupFD d ipod).hash else none)

/-- A world is hash-consistent when every reference's stored content hash
agrees with re-resolving its own declared path against the current
filesystem — the invariant the program maintains, since every mutation of a
reference goes through `set_editable_attributes`. -/
def HashConsistent (w : World) : Prop :=
  ∀ r ∈ w.refs, (hashAt w.env w.disk r.ref_path).getD r.img_hash = r.img_hash

instance (w : World) : Decidable (HashConsistent w) := by
  unfold HashConsistent
  infer_instance

theorem setEditable_img_hash (e : Env) (d : Disk) (r : Ref) (p : String) :
    (setEditableAttributes e d r p).img_hash = (hashAt e d p).getD r.img_hash := by
  unfold setEditableAttributes hashAt
  cases resolveRef e d p <;> simp

theorem refAt_mem (w : World) (i : Nat) (hi : i < w.refs.length) :
    refAt w i ∈ w.refs := by
  rw [refAt, List.getD_eq_getElem w.refs default hi]
  exact List.getElem_mem hi

theorem fixAll_eq_foldl_pairs (w : World) :
    fixAllSetsOfDuplicatedImages w =
      (getDuplicatedImages w).foldl (fun w e => fixOneSetOfDuplicatedImages w e.2) w := by
  rw [fixAllSetsOfDuplicatedImages, List.foldl_map]

theorem fixAll_length (w : World) :
    (fixAllSetsOfDuplicatedImages w).refs.length = w.refs.length := by
  rw [fixAll_eq_foldl_pairs]
  exact foldl_pairs_length _ w

theorem hashPaths_headD_mainOf (w : World) (h : Option String) (p0 : String) (tl : List String)
    (hp : hashPaths w h = p0 :: tl) : mainOf (hashGroup w h) = p0 := by
  rw [mainOf, hashGroup_eq, hp]
  rfl

theorem fixAll_refAt_hash (w : World) (hc : HashConsistent w) (i : Nat)
    (hi : i < w.refs.length) :
    (refAt (fixAllSetsOfDuplicatedImages w) i).img_hash = (refAt w i).img_hash := by
  rw [fixAll_eq_foldl_pairs]
  by_cases hcase : ∃ e ∈ getDuplicatedImages w, i ∈ groupTouched e.2
  · obtain ⟨e, he, hin⟩ := hcase
    rw [foldl_pairs_update _ w i e (nodup_pairsTouched_dup w) hi he hin,
      setEditable_img_hash]
    obtain ⟨⟨h, hmemh, rfl⟩, hlen, hne⟩ := (mem_getDuplicatedImages w e).mp he
    rw [hashGroup_length] at hlen
    rcases hp : hashPaths w h with _ | ⟨p0, tl⟩
    · rw [hp] at hlen
      simp at hlen
    · rw [hashPaths_headD_mainOf w h p0 tl hp]
      have hp0 : p0 ∈ hashPaths w h := by
        rw [hp]
        exact List.mem_cons_self _ _
      rw [hashPaths, mem_dedupFirst] at hp0
      obtain ⟨r, hr, hrp⟩ := List.mem_map.mp hp0
      obtain ⟨hrmem, hrh⟩ := List.mem_filter.mp hr
      rw [decide_eq_true_iff] at hrh
      have hhi : (refAt w i).img_hash = h := (touched_hash_of_mem w h i hin).2
      rcases hv : hashAt w.env w.disk p0 with _ | v
      · simp
      · have := hc r hrmem
        rw [hrp, hv] at this
        simp only [Option.getD_some] at this ⊢
        rw [this, hrh, hhi]
  · push_neg at hcase
    rw [foldl_pairs_frame _ w i hcase]

theorem fixAll_refAt_path (w : World) (i : Nat)
    (hi : i < w.refs.length) (hne : (refAt w i).img_hash ≠ none) :
    (refAt (fixAllSetsOfDuplicatedImages w) i).ref_path =
      (hashPaths w ((refAt w i).img_hash)).headD "" := by
  have hpmem : (refAt w i).ref_path ∈ hashPaths w ((refAt w i).img_hash) := by
    rw [hashPaths, mem_dedupFirst]
    exact List.mem_map.mpr ⟨refAt w i, List.mem_filter.mpr ⟨refAt_mem w i hi, by simp⟩, rfl⟩
  rw [fixAll_eq_foldl_pairs]
  by_cases hdup : 1 < (hashPaths w ((refAt w i).img_hash)).length
  · have hmemh : (refAt w i).img_hash ∈ dedupFirst (w.refs.map (fun r => r.img_hash)) := by
      rw [mem_dedupFirst]
      exact List.mem_map.mpr ⟨refAt w i, refAt_mem w i hi, rfl⟩
    have hedup : ((refAt w i).img_hash, hashGroup w ((refAt w i).img_hash)) ∈
        getDuplicatedImages w :=
      (mem_getDuplicatedImages w _).mpr
        ⟨⟨(refAt w i).img_hash, hmemh, rfl⟩, by rw [hashGroup_length]; exact hdup, hne⟩
    rcases hp : hashPaths w ((refAt w i).img_hash) with _ | ⟨p0, tl⟩
    · rw [hp] at hdup
      simp at hdup
    · by_cases hpi : (refAt w i).ref_path = p0
      · have hout : ∀ e ∈ getDuplicatedImages w, i ∉ groupTouched e.2 := by
          intro e he hin
          obtain ⟨⟨h', hmemh', rfl⟩, _, _⟩ := (mem_getDuplicatedImages w e).mp he
          have hh' : h' = (refAt w i).img_hash := ((touched_hash_of_mem w h' i hin).2).symm
          subst hh'
          obtain ⟨p, hptl, _, _, hpath⟩ := (mem_groupTouched_hashGroup w _ i).mp hin
          rw [hp] at hptl
          have hnd : (hashPaths w ((refAt w i).img_hash)).Nodup := nodup_dedupFirst _
          rw [hp] at hnd
          exact (List.nodup_cons.mp hnd).1 (by rw [← hpath, hpi] at hptl; exact hptl)
        rw [foldl_pairs_frame _ w i hout, hpi]
        rfl
      · have hin : i ∈ groupTouched (hashGroup w ((refAt w i).img_hash)) := by
          rw [mem_groupTouched_hashGroup]
          refine ⟨(refAt w i).ref_path, ?_, hi, rfl, rfl⟩
          rw [hp] at hpmem ⊢
          rcases List.mem_cons.mp hpmem with he | he
          · exact absurd he hpi
          · exact he
        rw [foldl_pairs_update _ w i ((refAt w i).img_hash,
            hashGroup w ((refAt w i).img_hash)) (nodup_pairsTouched_dup w) hi hedup hin,
          setEditable_ref_path, hashPaths_headD_mainOf w _ p0 tl hp]
        rfl
  · have hout : ∀ e ∈ getDuplicatedImages w, i ∉ groupTouched e.2 := by
      intro e he hin
      obtain ⟨⟨h', _, rfl⟩, hlen, _⟩ := (mem_getDuplicatedImages w e).mp he
      have hh' : h' = (refAt w i).img_hash := ((touched_hash_of_mem w h' i hin).2).symm
      subst hh'
      rw [hashGroup_length] at hlen
      exact hdup hlen
    rw [foldl_pairs_frame _ w i hout]
    rcases hp : hashPaths w ((refAt w i).img_hash) with _ | ⟨p0, tl⟩
    · rw [hp] at hpmem
      cases hpmem
    · rw [hp] at hpmem hdup
      have htl : tl = [] := by
        cases tl with
        | nil => rfl
        | cons q qs => simp at hdup
      subst htl
      rcases List.mem_cons.mp hpmem with he | he
      · rw [he]
        rfl
      · cases he

theorem getDuplicatedImages_fixAll_nil (w : World) (hc : HashConsistent w) :
    getDuplicatedImages (fixAllSetsOfDuplicatedImages w) = [] := by
  rw [getDuplicatedImages, List.filter_eq_nil_iff]
  intro x hx
  obtain ⟨h', hmemh', rfl⟩ := (mem_refsIndexedByHashByImg _ x).mp hx
  simp only [Bool.and_eq_true, decide_eq_true_iff, not_and, ne_eq, not_not]
  intro hlen
  by_contra hne
  have hle : (hashGroup (fixAllSetsOfDuplicatedImages w) h').length ≤ 1 := by
    rw [hashGroup_length, hashPaths]
    apply dedupFirst_length_le_one _ ((hashPaths w h').headD "")
    intro x hx2
    obtain ⟨r', hr', rfl⟩ := List.mem_map.mp hx2
    obtain ⟨hrmem, hrh⟩ := List.mem_filter.mp hr'
    rw [decide_eq_true_iff] at hrh
    obtain ⟨i, hi, hri⟩ := List.mem_iff_getElem.mp hrmem
    have hi0 : i < w.refs.length := by rw [← fixAll_length w]; exact hi
    have hrefAt : refAt (fixAllSetsOfDuplicatedImages w) i = r' := by
      rw [refAt, List.getD_eq_getElem _ default hi, hri]
    have hhash : (refAt w i).img_hash = h' := by
      rw [← fixAll_refAt_hash w hc i hi0, hrefAt, hrh]
    have hne0 : (refAt w i).img_hash ≠ none := by
      rw [hhash]
      exact hne
    have hpath := fixAll_refAt_path w i hi0 hne0
    rw [hrefAt, hhash] at hpath
    exact hpath
  omega

theorem fixAll_of_dup_nil (w : World) (h : getDuplicatedImages w = []) :
    fixAllSetsOfDuplicatedImages w = w := by
  rw [fixAllSetsOfDuplicatedImages, h]
  rfl

/-- Claim C7 as amended: from any hash-consistent state — one where each
reference's stored content hash agrees with re-resolving its declared path
against the current filesystem, the invariant the program maintains —
running the duplicate-consolidation pass twice produces exactly the state
of running it once: no reference facts, document content or trash-queue
entries change on the second run. (Without the consistency hypothesis the
property fails, see `c7_counterexample`.) -/
theorem c7_consolidation_idempotent (w : World) (hc : HashConsistent w) :
    fixAllSetsOfDuplicatedImages (fixAllSetsOfDuplicatedImages w) =
      fixAllSetsOfDuplicatedImages w :=
  fixAll_of_dup_nil _ (getDuplicatedImages_fixAll_nil w hc)

/-- Witness for the amended C7 at the concrete duplicate world. -/
theorem c7_witness :
    fixAllSetsOfDuplicatedImages (fixAllSetsOfDuplicatedImages exWorldC3) =
      fixAllSetsOfDuplicatedImages exWorldC3 :=
  c7_consolidation_idempotent exWorldC3 (by decide)

/-! ### Claims C10 and C3 -/

/-- Claim C10: duplicate-content consolidation never acts on references
with an undefined content hash. The duplicated-images query excludes the
group keyed by the `None` hash; consequently the pass leaves every
reference whose hash is undefined unchanged, and every path it queues for
removal is the declared path of some reference whose hash is defined. -/
theorem c10_none_hash_never_consolidated (w : World) :
    (∀ x ∈ getDuplicatedImages w, x.1 ≠ none) ∧
    (∀ i : Nat, i < w.refs.length → (refAt w i).img_hash = none →
      refAt (fixAllSetsOfDuplicatedImages w) i = refAt w i) ∧
    (∀ p, p ∈ (fixAllSetsOfDuplicatedImages w).trash_queue →
      p ∈ w.trash_queue ∨ ∃ r ∈ w.refs, r.img_hash ≠ none ∧ r.ref_path = p) := by
  refine ⟨?_, ?_, ?_⟩
  · intro x hx
    exact ((mem_getDuplicatedImages w x).mp hx).2.2
  · intro i hi hnone
    rw [fixAll_eq_foldl_pairs]
    apply foldl_pairs_frame
    intro e he hin
    obtain ⟨⟨h, _, rfl⟩, _, hne⟩ := (mem_getDuplicatedImages w e).mp he
    exact hne (by rw [← (touched_hash_of_mem w h i hin).2, hnone])
  · intro p hp
    rw [fixAll_eq_foldl_pairs] at hp
    rcases (foldl_pairs_queue _ w p).mp hp with hq | ⟨e, he, hmem⟩
    · exact Or.inl hq
    · right
      obtain ⟨⟨h, _, rfl⟩, _, hne⟩ := (mem_getDuplicatedImages w e).mp he
      rw [hashGroup_tail, List.map_map] at hmem
      simp only [Function.comp_def] at hmem
      obtain ⟨q, hq, rfl⟩ := List.mem_map.mp hmem
      have hq2 : q ∈ hashPaths w h := List.mem_of_mem_tail hq
      rw [hashPaths, mem_dedupFirst] at hq2
      obtain ⟨r, hr, hrq⟩ := List.mem_map.mp hq2
      obtain ⟨hrmem, hrh⟩ := List.mem_filter.mp hr
      rw [decide_eq_true_iff] at hrh
      exact ⟨r, hrmem, by rw [hrh]; exact hne, hrq⟩

/-- A reference whose declared path does not resolve (undefined hash),
added in front of the duplicate world to witness C10. -/
def exRefC10 : Ref := setEditableAttributes exEnv exDiskC3 default "worlds/w/missing.png"

/-- The duplicate world with one extra undefined-hash reference. -/
def exWorldC10 : World := { exWorldC3 with refs := exRefC10 :: exWorldC3.refs }

/-- Witness for C10: the undefined-hash reference is untouched by the
pass, and the queued path `east.webp` belongs to a reference with a
defined hash. -/
theorem c10_witness :
    refAt (fixAllSetsOfDuplicatedImages exWorldC10) 0 = refAt exWorldC10 0 ∧
    ("worlds/w/east.webp" ∈ exWorldC10.trash_queue ∨
      ∃ r ∈ exWorldC10.refs, r.img_hash ≠ none ∧ r.ref_path = "worlds/w/east.webp") :=
  ⟨(c10_none_hash_never_consolidated exWorldC10).2.1 0 (by decide) (by decide),
    (c10_none_hash_never_consolidated exWorldC10).2.2 "worlds/w/east.webp" (by decide)⟩

/-- Claim C3 as amended: the canonical image of a duplicated group is the
first key of the group dict — the first-encountered declared path of that
content hash, in scan order — not the lexicographically smallest path
(see `c3_counterexample`). Every reference under each later key is
re-resolved at the canonical path (its facts become those of
`set_editable_attributes` at it) and each later key is queued for removal;
the keys of each duplicated group are exactly the distinct declared paths
of that hash in first-occurrence order. -/
theorem c3_canonical_is_first_key (w : World) (main : String) (b0 : List Nat)
    (rest : List (String × List Nat))
    (hnd : (groupTouched ((main, b0) :: rest)).Nodup) :
    (∀ pr ∈ rest, pr.1 ∈ (fixOneSetOfDuplicatedImages w ((main, b0) :: rest)).trash_queue) ∧
    (∀ pr ∈ rest, ∀ i ∈ pr.2, i < w.refs.length →
      refAt (fixOneSetOfDuplicatedImages w ((main, b0) :: rest)) i =
        setEditableAttributes w.env w.disk (refAt w i) main ∧
      (refAt (fixOneSetOfDuplicatedImages w ((main, b0) :: rest)) i).ref_path = main) ∧
    (∀ x ∈ getDuplicatedImages w,
      x.2 = hashGroup w x.1 ∧ x.2.map (fun pr => pr.1) = hashPaths w x.1) := by
  refine ⟨?_, ?_, ?_⟩
  · intro pr hpr
    rw [fixOneSet_queue_iff]
    exact Or.inr (List.mem_map.mpr ⟨pr, hpr, rfl⟩)
  · intro pr hpr i hi hlen
    have hin : i ∈ groupTouched ((main, b0) :: rest) := by
      rw [groupTouched]
      exact List.mem_flatten.mpr ⟨pr.2, List.mem_map.mpr ⟨pr, hpr, rfl⟩, hi⟩
    have hupd := fixOneSet_update main b0 rest w i hnd hlen hin
    exact ⟨hupd, by rw [hupd, setEditable_ref_path]⟩
  · intro x hx
    obtain ⟨⟨h, _, rfl⟩, _, _⟩ := (mem_getDuplicatedImages w x).mp hx
    refine ⟨rfl, ?_⟩
    rw [hashGroup_eq, List.map_map]
    simp [Function.comp_def]

/-- Witness for the amended C3 at the concrete duplicate world: its single
duplicated group has `east_copy.webp` (first encountered) as canonical
key; the reference under `east.webp` is re-resolved at the canonical path
and `east.webp` is queued. -/
theorem c3_witness :
    "worlds/w/east.webp" ∈ (fixOneSetOfDuplicatedImages exWorldC3
      [("worlds/w/east_copy.webp", [0]), ("worlds/w/east.webp", [1])]).trash_queue ∧
    refAt (fixOneSetOfDuplicatedImages exWorldC3
        [("worlds/w/east_copy.webp", [0]), ("worlds/w/east.webp", [1])]) 1 =
      setEditableAttributes exWorldC3.env exWorldC3.disk (refAt exWorldC3 1)
        "worlds/w/east_copy.webp" :=
  ⟨(c3_canonical_is_first_key exWorldC3 "worlds/w/east_copy.webp" [0]
      [("worlds/w/east.webp", [1])] (by decide)).1 _ (List.mem_singleton.mpr rfl),
    ((c3_canonical_is_first_key exWorldC3 "worlds/w/east_copy.webp" [0]
      [("worlds/w/east.webp", [1])] (by decide)).2.1 _ (List.mem_singleton.mpr rfl) 1
      (List.mem_singleton.mpr rfl) (by decide)).1⟩

end Vtt
